import Mathlib

/-!
# LLCond (indra/llcommon/llcond.h)

A shallow embedding of `LLCond<DATA>`, `LLScalarCond<DATA>` and of the way
they use `boost::fibers::mutex`, `boost::fibers::condition_variable` and
`std::chrono::steady_clock`.

The calling execution context is modelled by explicit state passing.  The
state holds the stored `mData`, the reading of the steady clock and the
sequence of operations the context has performed on `mMutex`, `mCond`,
`mData` and the clock.  Whatever the other execution contexts do while the
caller is blocked inside `mCond.wait` / `mCond.wait_until` is supplied from
outside as a list of wakeups: each wakeup says which updates the other
contexts ran on `mData` while the caller was blocked, what the clock reads
when the caller owns the mutex again and what the condition variable
reports.  A wait whose predicate is still false when the supplied wakeups
are used up has not returned: the model gives `none`.
-/

/-- The result of `condition_variable::wait_until`. -/
inductive cv_status where
  | no_timeout
  | timeout
  deriving DecidableEq, Repr

/-- The operations a calling context performs, in program order. -/
inductive Event where
  /-- The constructor `std::unique_lock<boost::fibers::mutex> lk(mMutex)` -/
  | lock
  /-- The destructor of `lk`, at the end of its scope -/
  | unlock
  /-- The call `modify(mData)` -/
  | modify
  /-- One evaluation `pred(const_cast<const DATA&>(mData))` and its result -/
  | pred (r : Bool)
  /-- The `return mData` of `get()` -/
  | read
  /-- The call `mCond.notify_one()` -/
  | notify_one
  /-- The call `mCond.notify_all()` -/
  | notify_all
  /-- One call `mCond.wait(lk)`, from blocking to owning the mutex again -/
  | wait
  /-- One call `mCond.wait_until(lk, timeout_time)` and what it reported -/
  | wait_until (timeout_time : Int) (st : cv_status)
  /-- One call `std::chrono::steady_clock::now()` and its reading -/
  | now (t : Int)
  deriving DecidableEq, Repr

/-- The state of one `LLCond<DATA>` as the calling context sees it. -/
structure LLCond (α : Type) where
  /-- The DATA controlled by the condition variable -/
  mData : α
  /-- The reading of `std::chrono::steady_clock` -/
  clock : Int
  /-- What the context has done so far on `mMutex`, `mCond`, `mData`, the clock -/
  trace : List Event

/-- What happens while the caller is blocked in one wait on `mCond`. -/
structure Wakeup (α : Type) where
  /-- What `mCond.wait_until` reports (`mCond.wait` reports nothing) -/
  status : cv_status
  /-- The clock when the caller owns the mutex again -/
  now : Int
  /-- The mutators other contexts ran through `update_one` / `update_all`
  while the caller was blocked, each with the clock reading of its call, in
  the order the mutex serialised them; empty for a spurious wakeup -/
  writes : List (Int × (α → α))

namespace Wakeup

variable {α : Type}

/-- The stored value once the writes of one wakeup have been applied. -/
def apply (w : Wakeup α) (v : α) : α :=
  w.writes.foldl (fun acc u => u.2 acc) v

/-- The stored value a caller observes after a run of wakeups. -/
def observe (v : α) (ws : List (Wakeup α)) : α :=
  ws.foldl (fun acc w => w.apply acc) v

end Wakeup

namespace LLCond

variable {α : Type}

/-- The constructor `LLCond(DATA&& init=DATA())`, called with an argument. -/
def mk_init (init : α) (clock : Int) : LLCond α :=
  ⟨init, clock, []⟩

/-- Append one operation to the record of the context. -/
def emit (c : LLCond α) (e : Event) : LLCond α :=
  { c with trace := c.trace ++ [e] }

/-- The operations performed between state `c` and the later state `c1`. -/
def emitted (c c1 : LLCond α) : List Event :=
  c1.trace.drop c.trace.length

/-- The accessor `const DATA& get() const { return mData; }`. -/
def get (c : LLCond α) : α × LLCond α :=
  (c.mData, c.emit .read)

/-- The block `{ unique_lock lk(mMutex); modify(mData); }` shared by
`update_one` and `update_all`. -/
def locked_modify (modify : α → α) (c : LLCond α) : LLCond α :=
  let c1 := c.emit .lock
  let c2 := { c1 with mData := modify c1.mData }.emit .modify
  c2.emit .unlock

/-- The method `update_one(modify)`: lock, `modify(mData)`, unlock, `mCond.notify_one()`. -/
def update_one (modify : α → α) (c : LLCond α) : LLCond α :=
  (locked_modify modify c).emit .notify_one

/-- The method `update_all(modify)`: lock, `modify(mData)`, unlock, `mCond.notify_all()`. -/
def update_all (modify : α → α) (c : LLCond α) : LLCond α :=
  (locked_modify modify c).emit .notify_all

/-- One `mCond.wait(lk)`: the caller is blocked with the mutex released, the
writes of the wakeup happen, the caller owns the mutex again. -/
def cv_wait (w : Wakeup α) (c : LLCond α) : LLCond α :=
  { mData := w.apply c.mData, clock := w.now, trace := c.trace ++ [.wait] }

/-- One `mCond.wait_until(lk, timeout_time)`, as `cv_wait`, reporting
`w.status`. -/
def cv_wait_until (timeout_time : Int) (w : Wakeup α) (c : LLCond α) : LLCond α :=
  { mData := w.apply c.mData, clock := w.now,
    trace := c.trace ++ [.wait_until timeout_time w.status] }

/-- The loop `while (! pred(mData)) { mCond.wait(lk); }` of `wait`.  The
result is the state when the loop is left and the wakeups not consumed. -/
def wait_loop (pred : α → Bool) :
    List (Wakeup α) → LLCond α → Option (LLCond α × List (Wakeup α))
  | [], c =>
    if pred c.mData then some (c.emit (.pred true), []) else none
  | w :: rest, c =>
    if pred c.mData then some (c.emit (.pred true), w :: rest)
    else wait_loop pred rest (cv_wait w (c.emit (.pred false)))

/-- The method `wait(pred)`: lock, loop, and the unlock when `lk` goes out of scope. -/
def wait (pred : α → Bool) (c : LLCond α) (ws : List (Wakeup α)) :
    Option (LLCond α × List (Wakeup α)) :=
  (wait_loop pred ws (c.emit .lock)).map (fun r => (r.1.emit .unlock, r.2))

/-- The loop of `wait_until` with its two `return` statements. -/
def wait_until_loop (timeout_time : Int) (pred : α → Bool) :
    List (Wakeup α) → LLCond α → Option (Bool × LLCond α × List (Wakeup α))
  | [], c =>
    if pred c.mData then some (true, c.emit (.pred true), []) else none
  | w :: rest, c =>
    if pred c.mData then some (true, c.emit (.pred true), w :: rest)
    else
      let c1 := cv_wait_until timeout_time w (c.emit (.pred false))
      if w.status = cv_status.timeout then
        some (pred c1.mData, c1.emit (.pred (pred c1.mData)), rest)
      else wait_until_loop timeout_time pred rest c1

/-- The method `wait_until(timeout_time, pred)`: lock, loop, unlock. -/
def wait_until (timeout_time : Int) (pred : α → Bool) (c : LLCond α)
    (ws : List (Wakeup α)) : Option (Bool × LLCond α × List (Wakeup α)) :=
  (wait_until_loop timeout_time pred ws (c.emit .lock)).map
    (fun r => (r.1, r.2.1.emit .unlock, r.2.2))

/-- The sum `std::chrono::steady_clock::now() + timeout_duration` of
`wait_for`, both counted in the ticks of the steady clock: the time point
holds a signed 64-bit count, so the sum wraps around at `2 ^ 63`. -/
def chrono_add (now timeout_duration : Int) : Int :=
  (now + timeout_duration + 9223372036854775808) % 18446744073709551616
    - 9223372036854775808

/-- The method `wait_for(timeout_duration, pred)`:
`return wait_until(std::chrono::steady_clock::now() + timeout_duration, pred)`. -/
def wait_for (timeout_duration : Int) (pred : α → Bool) (c : LLCond α)
    (ws : List (Wakeup α)) : Option (Bool × LLCond α × List (Wakeup α)) :=
  wait_until (chrono_add c.clock timeout_duration) pred (c.emit (.now c.clock)) ws

/-- The operations of the loop of `wait` that consumes `n` wakeups: `n`
failed evaluations of the predicate, each followed by one `mCond.wait`, then
the evaluation that succeeds. -/
def wait_events : Nat → List Event
  | 0 => [.pred true]
  | n + 1 => .pred false :: .wait :: wait_events n

/-- The operations of the loop of `wait_until` that consumes wakeups with
the statuses `sts` and ends on an evaluation of the predicate giving `b`. -/
def wait_until_events (timeout_time : Int) : List cv_status → Bool → List Event
  | [], b => [.pred b]
  | st :: sts, b =>
    .pred false :: .wait_until timeout_time st :: wait_until_events timeout_time sts b

/-- The clock after a run of wakeups, `t0` being the clock before it. -/
def clock_after (t0 : Int) : List (Wakeup α) → Int
  | [] => t0
  | w :: ws => clock_after w.now ws

/-- The values a run of writes stores, each with the clock reading of its
write, `v` being the stored value before the first. -/
def writes_history : α → List (Int × (α → α)) → List (Int × α)
  | _, [] => []
  | v, u :: us => (u.1, u.2 v) :: writes_history (u.2 v) us

/-- The history of the stored value from a call made in state `c` on: the
value at the call, then every value written while the caller is blocked. -/
def history (c : LLCond α) (ws : List (Wakeup α)) : List (Int × α) :=
  (c.clock, c.mData) :: writes_history c.mData (ws.map Wakeup.writes).flatten

/-- Whether `pred` is true of some value the history holds at a clock
reading before or exactly at `timeout_time`. -/
def became_true_by (timeout_time : Int) (pred : α → Bool) (c : LLCond α)
    (ws : List (Wakeup α)) : Bool :=
  (history c ws).any (fun tv => decide (tv.1 ≤ timeout_time) && pred tv.2)

/-- What `condition_variable::wait_until` promises about the status it
reports: `timeout` only once the clock has reached `timeout_time`. -/
def cv_contract (timeout_time : Int) (w : Wakeup α) : Prop :=
  w.status = cv_status.timeout → timeout_time ≤ w.now

/-- What `condition_variable::wait_until` promises, read off a finished
call that went from state `c` to state `c1`: a timed wait that reported
timeout had been given a deadline the clock has reached.  The calls return
at the first report of timeout, so the clock of `c1` is the clock at that
report. -/
def timeouts_honest (c c1 : LLCond α) : Prop :=
  ∀ u, Event.wait_until u cv_status.timeout ∈ emitted c c1 → u ≤ c1.clock

end LLCond

namespace LLScalarCond

variable {α : Type}

/-- The method `set_one(value)`: `super::update_one([](DATA& data){ data = value; })`. -/
def set_one (value : α) (c : LLCond α) : LLCond α :=
  LLCond.update_one (fun _ => value) c

/-- The method `set_all(value)`: `super::update_all([](DATA& data){ data = value; })`. -/
def set_all (value : α) (c : LLCond α) : LLCond α :=
  LLCond.update_all (fun _ => value) c

/-- The method `wait_equal(value)`:
`super::wait([&value](const DATA& data){ return (data == value); })`. -/
def wait_equal [BEq α] (value : α) (c : LLCond α) (ws : List (Wakeup α)) :
    Option (LLCond α × List (Wakeup α)) :=
  LLCond.wait (fun data => data == value) c ws

/-- The method `wait_until_equal(timeout_time, value)`: `super::wait_until`
with the predicate `data == value`. -/
def wait_until_equal [BEq α] (timeout_time : Int) (value : α) (c : LLCond α)
    (ws : List (Wakeup α)) : Option (Bool × LLCond α × List (Wakeup α)) :=
  LLCond.wait_until timeout_time (fun data => data == value) c ws

/-- The method `wait_for_equal(timeout_duration, value)`: `super::wait_for`
with the predicate `data == value`. -/
def wait_for_equal [BEq α] (timeout_duration : Int) (value : α) (c : LLCond α)
    (ws : List (Wakeup α)) : Option (Bool × LLCond α × List (Wakeup α)) :=
  LLCond.wait_for timeout_duration (fun data => data == value) c ws

/-- The method `wait_unequal(value)`:
`super::wait([&value](const DATA& data){ return (data != value); })`. -/
def wait_unequal [BEq α] (value : α) (c : LLCond α) (ws : List (Wakeup α)) :
    Option (LLCond α × List (Wakeup α)) :=
  LLCond.wait (fun data => data != value) c ws

/-- The method `wait_until_unequal(timeout_time, value)`: `super::wait_until`
with the predicate `data != value`. -/
def wait_until_unequal [BEq α] (timeout_time : Int) (value : α) (c : LLCond α)
    (ws : List (Wakeup α)) : Option (Bool × LLCond α × List (Wakeup α)) :=
  LLCond.wait_until timeout_time (fun data => data != value) c ws

/-- The method `wait_for_unequal(timeout_duration, value)`: `super::wait_for`
with the predicate `data != value`. -/
def wait_for_unequal [BEq α] (timeout_duration : Int) (value : α) (c : LLCond α)
    (ws : List (Wakeup α)) : Option (Bool × LLCond α × List (Wakeup α)) :=
  LLCond.wait_for timeout_duration (fun data => data != value) c ws

end LLScalarCond

/-- The values of a `double` as far as `LLScalarCond<double>` compares them:
a number or NaN. -/
inductive DoubleData where
  /-- The value NaN -/
  | nan
  /-- A number -/
  | num (n : Int)
  deriving DecidableEq, Repr

/-- The `operator==` of `double`: two numbers are compared, NaN is unequal to
every value, itself included. -/
def DoubleData.eq : DoubleData → DoubleData → Bool
  | .num a, .num b => a == b
  | _, _ => false

instance DoubleData.instBEq : BEq DoubleData := ⟨DoubleData.eq⟩

/-- The constructor `LLCond(DATA&& init=DATA())` called with no argument:
the stored value is the value-initialised `DATA()`. -/
def LLCond.mk_default {α : Type} [Inhabited α] (clock : Int) : LLCond α :=
  LLCond.mk_init default clock

namespace LLOneShotCond

/-- The constructor `LLOneShotCond(): super(false) {}`. -/
def mk_init (clock : Int) : LLCond Bool :=
  LLCond.mk_init false clock

/-- The method `set_one(bool value=true)`: `super::set_one(value)`. -/
def set_one (value : Bool) (c : LLCond Bool) : LLCond Bool :=
  LLScalarCond.set_one value c

/-- The method `set_all(bool value=true)`: `super::set_all(value)`. -/
def set_all (value : Bool) (c : LLCond Bool) : LLCond Bool :=
  LLScalarCond.set_all value c

/-- The call `set_one()`: the default argument makes it `set_one(true)`. -/
def set_one_nullary (c : LLCond Bool) : LLCond Bool :=
  LLOneShotCond.set_one true c

/-- The call `set_all()`: the default argument makes it `set_all(true)`. -/
def set_all_nullary (c : LLCond Bool) : LLCond Bool :=
  LLOneShotCond.set_all true c

/-- The method `wait()`: `super::wait_equal(true)`. -/
def wait (c : LLCond Bool) (ws : List (Wakeup Bool)) :
    Option (LLCond Bool × List (Wakeup Bool)) :=
  LLScalarCond.wait_equal true c ws

/-- The method `wait_until(timeout_time)`:
`return super::wait_until_equal(timeout_time, true)`. -/
def wait_until (timeout_time : Int) (c : LLCond Bool) (ws : List (Wakeup Bool)) :
    Option (Bool × LLCond Bool × List (Wakeup Bool)) :=
  LLScalarCond.wait_until_equal timeout_time true c ws

/-- The method `wait_for(timeout_duration)`:
`return super::wait_for_equal(timeout_duration, true)`. -/
def wait_for (timeout_duration : Int) (c : LLCond Bool) (ws : List (Wakeup Bool)) :
    Option (Bool × LLCond Bool × List (Wakeup Bool)) :=
  LLScalarCond.wait_for_equal timeout_duration true c ws

end LLOneShotCond

/-- One call of a method that `LLOneShotCond` declares, with its argument. -/
inductive LatchOp where
  /-- A call `set_one(value)`; `set_one()` is `set_one(true)` -/
  | set_one (value : Bool)
  /-- A call `set_all(value)`; `set_all()` is `set_all(true)` -/
  | set_all (value : Bool)
  /-- A call `wait()` -/
  | wait
  /-- A call `wait_until(timeout_time)` -/
  | wait_until (timeout_time : Int)
  /-- A call `wait_for(timeout_duration)` -/
  | wait_for (timeout_duration : Int)
  deriving DecidableEq, Repr

namespace LLOneShotCond

/-- Run one call on the latch: the state after it and the wakeups left, or
`none` when the call has not returned within the wakeups supplied. -/
def run_op : LatchOp → LLCond Bool → List (Wakeup Bool) →
    Option (LLCond Bool × List (Wakeup Bool))
  | .set_one value, c, ws => some (LLOneShotCond.set_one value c, ws)
  | .set_all value, c, ws => some (LLOneShotCond.set_all value c, ws)
  | .wait, c, ws => LLOneShotCond.wait c ws
  | .wait_until t, c, ws => (LLOneShotCond.wait_until t c ws).map (fun r => r.2)
  | .wait_for d, c, ws => (LLOneShotCond.wait_for d c ws).map (fun r => r.2)

/-- Run a sequence of calls on the latch, one after another. -/
def run_ops : List LatchOp → LLCond Bool → List (Wakeup Bool) →
    Option (LLCond Bool × List (Wakeup Bool))
  | [], c, ws => some (c, ws)
  | op :: ops, c, ws => (run_op op c ws).bind (fun r => run_ops ops r.1 r.2)

end LLOneShotCond

namespace LLCond

variable {α : Type}

/-- Whether every access to `mData` in a run of operations (a call of the
mutator, an evaluation of the predicate, the read of `get`) and every wait
on `mCond` happens while the caller owns `mMutex`; `held` says whether it
owns the mutex before the run.  A wait on the condition variable releases
the mutex and owns it again when it returns. -/
def guarded : Bool → List Event → Bool
  | _, [] => true
  | _, .lock :: es => guarded true es
  | _, .unlock :: es => guarded false es
  | held, .modify :: es => held && guarded held es
  | held, .pred _ :: es => held && guarded held es
  | held, .read :: es => held && guarded held es
  | held, .wait :: es => held && guarded held es
  | held, .wait_until _ _ :: es => held && guarded held es
  | held, .notify_one :: es => guarded held es
  | held, .notify_all :: es => guarded held es
  | held, .now _ :: es => guarded held es

/-- Whether every `notify_one` / `notify_all` in a run of operations is
issued while the caller does not own `mMutex`. -/
def notify_unlocked : Bool → List Event → Bool
  | _, [] => true
  | _, .lock :: es => notify_unlocked true es
  | _, .unlock :: es => notify_unlocked false es
  | held, .notify_one :: es => !held && notify_unlocked held es
  | held, .notify_all :: es => !held && notify_unlocked held es
  | held, .modify :: es => notify_unlocked held es
  | held, .pred _ :: es => notify_unlocked held es
  | held, .read :: es => notify_unlocked held es
  | held, .wait :: es => notify_unlocked held es
  | held, .wait_until _ _ :: es => notify_unlocked held es
  | held, .now _ :: es => notify_unlocked held es

/-- Whether an operation is a notification of the condition variable. -/
def is_notify : Event → Bool
  | .notify_one => true
  | .notify_all => true
  | _ => false

end LLCond

/-- One call of an update method of `LLCond` with its mutator. -/
inductive Update (α : Type) where
  /-- A call `update_one(modify)` -/
  | one (modify : α → α)
  /-- A call `update_all(modify)` -/
  | all (modify : α → α)

namespace Update

variable {α : Type}

/-- The mutator passed to the call. -/
def modify : Update α → (α → α)
  | .one m => m
  | .all m => m

/-- Run the call on a state. -/
def run : Update α → LLCond α → LLCond α
  | .one m, c => LLCond.update_one m c
  | .all m, c => LLCond.update_all m c

/-- Run a list of update calls one after another. -/
def run_all (us : List (Update α)) (c : LLCond α) : LLCond α :=
  us.foldl (fun acc u => u.run acc) c

end Update

/-!
# LLDiskCache (indra/llfilesystem/lldiskcache.cpp)

The cache directory is modelled by what `boost::filesystem` reports about
it: whether `mCacheDir` is a directory and, for each entry the
`directory_iterator` yields, its path, whether it is a regular file, its
size and its last write time.  `file_size_total` and `total_file_size` are
`uintmax_t`: their additions wrap at `2 ^ 64`.
-/

/-- One entry of the cache directory, as `boost::filesystem` reports it. -/
structure DirEntry where
  /-- The string `entry.path().string()` -/
  path : String
  /-- The result of `boost::filesystem::is_regular_file(entry)` -/
  is_regular_file : Bool
  /-- The result of `boost::filesystem::file_size(entry)` -/
  file_size : Nat
  /-- The result of `boost::filesystem::last_write_time(entry)` -/
  last_write_time : Int
  deriving DecidableEq, Repr

/-- The directory `mCacheDir`. -/
structure CacheDir where
  /-- The result of `boost::filesystem::is_directory(mCacheDir)` -/
  is_directory : Bool
  /-- The entries `directory_iterator(mCacheDir)` yields, in its order -/
  entries : List DirEntry
  deriving DecidableEq, Repr

namespace LLDiskCache

/-- The number of values of `uintmax_t`. -/
def UINTMAX_MOD : Nat := 2 ^ 64

/-- The member `mCacheFilenamePrefix = "sl_cache"` set by the constructor. -/
def mCacheFilenamePrefix : String := "sl_cache"

/-- Whether the characters `s` begin with the characters `sub`. -/
def starts_with : List Char → List Char → Bool
  | [], _ => true
  | _ :: _, [] => false
  | a :: sub, b :: s => a == b && starts_with sub s

/-- Whether the characters `sub` occur in the characters `s`. -/
def occurs_in (sub : List Char) : List Char → Bool
  | [] => starts_with sub []
  | b :: s => starts_with sub (b :: s) || occurs_in sub s

/-- The test `s.find(sub) != std::string::npos`. -/
def string_find (s sub : String) : Bool :=
  occurs_in sub.toList s.toList

/-- The two nested tests of `purge`, `clearCache` and `dirFileSize`:
`is_regular_file(entry)` and
`entry.path().string().find(mCacheFilenamePrefix) != std::string::npos`. -/
def is_cache_file (entry : DirEntry) : Bool :=
  entry.is_regular_file && string_find entry.path mCacheFilenamePrefix

/-- The entries the three methods select: none when `mCacheDir` is not a
directory. -/
def cache_files (d : CacheDir) : List DirEntry :=
  if d.is_directory then d.entries.filter is_cache_file else []

/-- The type `file_info_t` of `purge`:
`std::pair<std::time_t, std::pair<uintmax_t, std::string>>`. -/
abbrev file_info_t := Int × (Nat × String)

/-- The vector `file_info` that `purge` collects. -/
def file_info (d : CacheDir) : List file_info_t :=
  (cache_files d).map (fun entry => (entry.last_write_time, (entry.file_size, entry.path)))

/-- What the call `std::sort` of `purge` with the comparison
`x.first > y.first` guarantees of the vector `sorted` it leaves, `l` being
the vector before the call: a rearrangement in which no entry comes after
one with an earlier time.  The order of entries of equal time is
unspecified. -/
def is_std_sorted (sorted l : List file_info_t) : Prop :=
  sorted.Perm l ∧ sorted.Pairwise (fun x y => y.1 ≤ x.1)

/-- One of the orders the call `std::sort` of `purge` may leave: the one
insertion sort gives.  What is proved of the order of the kept and deleted
files is proved for every order `is_std_sorted` admits. -/
def sort_file_info (l : List file_info_t) : List file_info_t :=
  l.insertionSort (fun x y => y.1 ≤ x.1)

/-- The call `boost::filesystem::remove(path)`. -/
def remove (path : String) (d : CacheDir) : CacheDir :=
  { d with entries := d.entries.filter (fun entry => entry.path != path) }

/-- The keep/delete loop of `purge` over the sorted `file_info`, from the
running total `file_size_total` and the directory `d`: for each entry the
action taken (true for `DELETE:`, false for `KEEP:`), and the directory at
the end. -/
def purge_loop (mMaxSizeBytes : Nat) :
    List file_info_t → Nat → CacheDir → List (Bool × file_info_t) × CacheDir
  | [], _, d => ([], d)
  | entry :: rest, file_size_total, d =>
    let total := (file_size_total + entry.2.1) % UINTMAX_MOD
    if total > mMaxSizeBytes then
      let r := purge_loop mMaxSizeBytes rest total (remove entry.2.2 d)
      ((true, entry) :: r.1, r.2)
    else
      let r := purge_loop mMaxSizeBytes rest total d
      ((false, entry) :: r.1, r.2)

/-- The `file_info_t` that `purge` records for a selected entry. -/
def file_info_of (entry : DirEntry) : file_info_t :=
  (entry.last_write_time, (entry.file_size, entry.path))

/-- The actions of `purge()` on the directory `d` when `std::sort` leaves
`file_info` in the order `sorted`. -/
def purge_with_actions (mMaxSizeBytes : Nat) (sorted : List file_info_t) (d : CacheDir) :
    List (Bool × file_info_t) :=
  (purge_loop mMaxSizeBytes sorted 0 d).1

/-- The directory `purge()` leaves of the directory `d` when `std::sort`
leaves `file_info` in the order `sorted`. -/
def purge_with (mMaxSizeBytes : Nat) (sorted : List file_info_t) (d : CacheDir) :
    CacheDir :=
  (purge_loop mMaxSizeBytes sorted 0 d).2

/-- The paths of a list of `file_info_t`. -/
def paths (l : List file_info_t) : List String :=
  l.map (fun x => x.2.2)

/-- The actions of `purge()` on the directory `d`. -/
def purge_actions (mMaxSizeBytes : Nat) (d : CacheDir) : List (Bool × file_info_t) :=
  (purge_loop mMaxSizeBytes (sort_file_info (file_info d)) 0 d).1

/-- The method `purge()`: the directory it leaves. -/
def purge (mMaxSizeBytes : Nat) (d : CacheDir) : CacheDir :=
  (purge_loop mMaxSizeBytes (sort_file_info (file_info d)) 0 d).2

/-- The entries a list of actions keeps. -/
def kept (actions : List (Bool × file_info_t)) : List file_info_t :=
  (actions.filter (fun a => !a.1)).map (fun a => a.2)

/-- The entries a list of actions deletes. -/
def deleted (actions : List (Bool × file_info_t)) : List file_info_t :=
  (actions.filter (fun a => a.1)).map (fun a => a.2)

/-- The sizes of a list of `file_info_t`. -/
def sizes (l : List file_info_t) : List Nat :=
  l.map (fun x => x.2.1)

/-- The method `clearCache()`: the directory it leaves. -/
def clearCache (d : CacheDir) : CacheDir :=
  if d.is_directory then
    d.entries.foldl
      (fun acc entry => if is_cache_file entry then remove entry.path acc else acc) d
  else d

/-- The method `dirFileSize(dir)`. -/
def dirFileSize (d : CacheDir) : Nat :=
  if d.is_directory then
    d.entries.foldl
      (fun total_file_size entry =>
        if is_cache_file entry then (total_file_size + entry.file_size) % UINTMAX_MOD
        else total_file_size) 0
  else 0

end LLDiskCache

open LLCond

/-! ## Auxiliary facts about the embedding -/

section aux

variable {α : Type}

@[simp] theorem LLCond.emit_mData (c : LLCond α) (e : Event) : (c.emit e).mData = c.mData := rfl

@[simp] theorem LLCond.emit_clock (c : LLCond α) (e : Event) : (c.emit e).clock = c.clock := rfl

@[simp] theorem LLCond.emit_trace (c : LLCond α) (e : Event) :
    (c.emit e).trace = c.trace ++ [e] := rfl

@[simp] theorem Wakeup.observe_nil (v : α) : Wakeup.observe v [] = v := rfl

@[simp] theorem Wakeup.observe_cons (v : α) (w : Wakeup α) (ws : List (Wakeup α)) :
    Wakeup.observe v (w :: ws) = Wakeup.observe (w.apply v) ws := rfl

theorem Wakeup.observe_append (v : α) (xs ys : List (Wakeup α)) :
    Wakeup.observe v (xs ++ ys) = Wakeup.observe (Wakeup.observe v xs) ys := by
  simp [Wakeup.observe, List.foldl_append]

/-- Wakeups during which no other context writes leave the value alone. -/
theorem Wakeup.observe_no_writes (v : α) (ws : List (Wakeup α))
    (h : ∀ w ∈ ws, w.writes = []) : Wakeup.observe v ws = v := by
  induction ws generalizing v with
  | nil => rfl
  | cons w ws ih =>
    have hw : w.apply v = v := by simp [Wakeup.apply, h w (List.mem_cons_self _ _)]
    rw [Wakeup.observe_cons, hw]
    exact ih v (fun x hx => h x (List.mem_cons_of_mem _ hx))

/-- If the operations from `c` to `c1` are known, so is the record of `c1`. -/
theorem LLCond.emitted_of_trace (c c1 : LLCond α) (s : List Event)
    (h : c1.trace = c.trace ++ s) : emitted c c1 = s := by
  simp [emitted, h]

/-- What the loop of `wait` has done when it is left. -/
theorem LLCond.wait_loop_some (pred : α → Bool) (ws : List (Wakeup α)) :
    ∀ (c c1 : LLCond α) (rest : List (Wakeup α)),
      wait_loop pred ws c = some (c1, rest) →
      ∃ consumed : List (Wakeup α),
        ws = consumed ++ rest ∧
        c1.mData = Wakeup.observe c.mData consumed ∧
        pred c1.mData = true ∧
        c1.clock = clock_after c.clock consumed ∧
        c1.trace = c.trace ++ wait_events consumed.length ∧
        ∀ k, k < consumed.length →
          pred (Wakeup.observe c.mData (consumed.take k)) = false := by
  induction ws with
  | nil =>
    intro c c1 rest h
    by_cases hp : pred c.mData = true
    · simp [wait_loop, hp] at h
      obtain ⟨h1, h2⟩ := h
      subst h1; subst h2
      exact ⟨[], by simp, by simp, by simpa using hp, rfl, by simp [wait_events], by simp⟩
    · simp [wait_loop, hp] at h
  | cons w ws ih =>
    intro c c1 rest h
    by_cases hp : pred c.mData = true
    · simp [wait_loop, hp] at h
      obtain ⟨h1, h2⟩ := h
      subst h1; subst h2
      exact ⟨[], by simp, by simp, by simpa using hp, rfl, by simp [wait_events], by simp⟩
    · simp only [wait_loop, hp] at h
      obtain ⟨consumed, h1, h2, h3, h4, h5, h6⟩ := ih _ _ _ h
      refine ⟨w :: consumed, by simp [h1], ?_, h3, ?_, ?_, ?_⟩
      · simpa [cv_wait] using h2
      · simpa [cv_wait, clock_after] using h4
      · simp [h5, cv_wait, wait_events]
      · intro k hk
        cases k with
        | zero => simpa using hp
        | succ k =>
          have hk1 : k < consumed.length := by simpa using hk
          simpa [cv_wait] using h6 k hk1

/-- A predicate that holds at the call makes the loop of `wait` leave at once. -/
theorem LLCond.wait_loop_of_true (pred : α → Bool) (ws : List (Wakeup α)) (c : LLCond α)
    (hp : pred c.mData = true) :
    wait_loop pred ws c = some (c.emit (.pred true), ws) := by
  cases ws <;> simp [wait_loop, hp]

/-- What the loop of `wait_until` has done when it is left. -/
theorem LLCond.wait_until_loop_some (t : Int) (pred : α → Bool) (ws : List (Wakeup α)) :
    ∀ (c c1 : LLCond α) (b : Bool) (rest : List (Wakeup α)),
      wait_until_loop t pred ws c = some (b, c1, rest) →
      ∃ consumed : List (Wakeup α),
        ws = consumed ++ rest ∧
        c1.mData = Wakeup.observe c.mData consumed ∧
        pred c1.mData = b ∧
        c1.clock = clock_after c.clock consumed ∧
        c1.trace = c.trace ++ wait_until_events t (consumed.map Wakeup.status) b ∧
        (∀ k, k < consumed.length →
          pred (Wakeup.observe c.mData (consumed.take k)) = false) ∧
        (∀ x ∈ consumed.dropLast, x.status = cv_status.no_timeout) ∧
        (b = false → ∃ w, consumed.getLast? = some w ∧ w.status = cv_status.timeout) := by
  induction ws with
  | nil =>
    intro c c1 b rest h
    by_cases hp : pred c.mData = true
    · simp [wait_until_loop, hp] at h
      obtain ⟨h0, h1, h2⟩ := h
      subst h0; subst h1; subst h2
      exact ⟨[], by simp, by simp, by simpa using hp, rfl, by simp [wait_until_events],
        by simp, by simp, by simp⟩
    · simp [wait_until_loop, hp] at h
  | cons w ws ih =>
    intro c c1 b rest h
    by_cases hp : pred c.mData = true
    · simp [wait_until_loop, hp] at h
      obtain ⟨h0, h1, h2⟩ := h
      subst h0; subst h1; subst h2
      exact ⟨[], by simp, by simp, by simpa using hp, rfl, by simp [wait_until_events],
        by simp, by simp, by simp⟩
    · by_cases hs : w.status = cv_status.timeout
      · simp [wait_until_loop, hp, hs] at h
        obtain ⟨h0, h1, h2⟩ := h
        subst h0; subst h1; subst h2
        refine ⟨[w], by simp, by simp [cv_wait_until], by simp [cv_wait_until],
          by simp [cv_wait_until, clock_after], ?_, ?_, by simp, ?_⟩
        · simp [cv_wait_until, wait_until_events, hs]
        · intro k hk
          have hk0 : k = 0 := by simpa using hk
          subst hk0
          simpa using hp
        · intro _
          exact ⟨w, by simp, hs⟩
      · simp only [wait_until_loop, hp, hs] at h
        obtain ⟨consumed, h1, h2, h3, h4, h5, h6, h7, h8⟩ := ih _ _ _ _ h
        have hs1 : w.status = cv_status.no_timeout := by
          cases hw : w.status with
          | no_timeout => rfl
          | timeout => exact absurd hw hs
        refine ⟨w :: consumed, by simp [h1], ?_, h3, ?_, ?_, ?_, ?_, ?_⟩
        · simpa [cv_wait_until] using h2
        · simpa [cv_wait_until, clock_after] using h4
        · simp [h5, cv_wait_until, wait_until_events]
        · intro k hk
          cases k with
          | zero => simpa using hp
          | succ k =>
            have hk1 : k < consumed.length := by simpa using hk
            simpa [cv_wait_until] using h6 k hk1
        · intro x hx
          cases consumed with
          | nil => simp at hx
          | cons y ys =>
            rw [List.dropLast_cons₂] at hx
            rcases List.mem_cons.mp hx with hxw | hxr
            · rw [hxw]; exact hs1
            · exact h7 x hxr
        · intro hb
          obtain ⟨x, hx1, hx2⟩ := h8 hb
          cases consumed with
          | nil => simp at hx1
          | cons y ys => exact ⟨x, by simpa [List.getLast?_cons_cons] using hx1, hx2⟩

/-- A predicate that holds at the call makes the loop of `wait_until` return
true at once. -/
theorem LLCond.wait_until_loop_of_true (t : Int) (pred : α → Bool) (ws : List (Wakeup α))
    (c : LLCond α) (hp : pred c.mData = true) :
    wait_until_loop t pred ws c = some (true, c.emit (.pred true), ws) := by
  cases ws <;> simp [wait_until_loop, hp]

/-- What `wait_until` has done when it returns. -/
theorem LLCond.wait_until_some (t : Int) (pred : α → Bool) (ws : List (Wakeup α))
    (c c1 : LLCond α) (b : Bool) (rest : List (Wakeup α))
    (h : wait_until t pred c ws = some (b, c1, rest)) :
    ∃ consumed : List (Wakeup α),
      ws = consumed ++ rest ∧
      c1.mData = Wakeup.observe c.mData consumed ∧
      pred c1.mData = b ∧
      c1.clock = clock_after c.clock consumed ∧
      c1.trace = c.trace ++
        (.lock :: wait_until_events t (consumed.map Wakeup.status) b ++ [.unlock]) ∧
      (∀ k, k < consumed.length →
        pred (Wakeup.observe c.mData (consumed.take k)) = false) ∧
      (∀ x ∈ consumed.dropLast, x.status = cv_status.no_timeout) ∧
      (b = false → ∃ w, consumed.getLast? = some w ∧ w.status = cv_status.timeout) := by
  unfold wait_until at h
  cases hl : wait_until_loop t pred ws (c.emit .lock) with
  | none => simp [hl] at h
  | some r =>
    obtain ⟨b2, c2, rest2⟩ := r
    simp [hl] at h
    obtain ⟨h0, h1, h2⟩ := h
    subst h0; subst h1; subst h2
    obtain ⟨consumed, e1, e2, e3, e4, e5, e6, e7, e8⟩ := wait_until_loop_some t pred ws _ _ _ _ hl
    exact ⟨consumed, e1, by simpa using e2, by simpa using e3, by simpa using e4,
      by simp [e5], by simpa using e6, e7, e8⟩

/-- The loop of `wait_until` run to the first report of timeout: wakeups
`pre` that report no timeout and after which the predicate is false, then
the wakeup `w` that reports timeout. -/
theorem LLCond.wait_until_loop_timeout (t : Int) (pred : α → Bool) (w : Wakeup α)
    (rest : List (Wakeup α)) (hw : w.status = cv_status.timeout) :
    ∀ (pre : List (Wakeup α)) (c : LLCond α),
      (∀ x ∈ pre, x.status = cv_status.no_timeout) →
      (∀ k, k ≤ pre.length → pred (Wakeup.observe c.mData (pre.take k)) = false) →
      wait_until_loop t pred (pre ++ w :: rest) c
        = some (pred (Wakeup.observe c.mData (pre ++ [w])),
            ⟨Wakeup.observe c.mData (pre ++ [w]), w.now,
              c.trace ++ wait_until_events t ((pre ++ [w]).map Wakeup.status)
                (pred (Wakeup.observe c.mData (pre ++ [w])))⟩,
            rest) := by
  intro pre
  induction pre with
  | nil =>
    intro c _ hk
    have hp : pred c.mData = false := by simpa using hk 0 (Nat.le_refl _)
    simp [wait_until_loop, hp, hw, cv_wait_until, emit, wait_until_events]
  | cons x pre ih =>
    intro c hst hk
    have hp : pred c.mData = false := by simpa using hk 0 (Nat.zero_le _)
    have hx : x.status = cv_status.no_timeout := hst x (List.mem_cons_self _ _)
    have hx1 : ¬ x.status = cv_status.timeout := by rw [hx]; decide
    have h := ih (cv_wait_until t x (c.emit (.pred false)))
      (fun y hy => hst y (List.mem_cons_of_mem _ hy))
      (fun k hk1 => by
        have := hk (k + 1) (by simpa using hk1)
        simpa [cv_wait_until] using this)
    simp only [List.cons_append, wait_until_loop, hp, hx1]
    simp only [Bool.false_eq_true, if_false]
    refine h.trans ?_
    simp [cv_wait_until, emit, wait_until_events, hx]

/-- The operations of a loop of `wait_until` whose last wakeup has status
`st` end with that timed wait and the evaluation after it. -/
theorem LLCond.wait_until_events_append (t : Int) (st : cv_status) (b : Bool) :
    ∀ sts : List cv_status,
      wait_until_events t (sts ++ [st]) b
        = wait_until_events t sts false ++ [.wait_until t st, .pred b] := by
  intro sts
  induction sts with
  | nil => simp [wait_until_events]
  | cons x xs ih => simp [wait_until_events, ih]

/-- The loop of `wait_until` never reads the clock. -/
theorem LLCond.wait_until_events_no_now (t : Int) (b : Bool) :
    ∀ sts : List cv_status,
      (wait_until_events t sts b).filter (fun e => e matches .now _) = [] := by
  intro sts
  induction sts with
  | nil => simp [wait_until_events]
  | cons x xs ih => simpa [wait_until_events] using ih

/-- Every timed wait of the loop of `wait_until` is given `timeout_time`. -/
theorem LLCond.wait_until_events_deadline (t : Int) (b : Bool) (u : Int) (st : cv_status) :
    ∀ sts : List cv_status,
      Event.wait_until u st ∈ wait_until_events t sts b → u = t := by
  intro sts
  induction sts with
  | nil => simp [wait_until_events]
  | cons x xs ih =>
    intro h
    simp only [wait_until_events, List.mem_cons] at h
    rcases h with h | h | h
    · cases h
    · cases h; rfl
    · exact ih h

/-- The loop of `wait_until` uses of the state only the value and the clock:
started on a state with another record it does the same and appends the same
operations. -/
theorem LLCond.wait_until_loop_frame (t : Int) (pred : α → Bool) (ws : List (Wakeup α)) :
    ∀ (c d : LLCond α), d.mData = c.mData → d.clock = c.clock →
      wait_until_loop t pred ws d
        = (wait_until_loop t pred ws c).map
            (fun r => (r.1, ⟨r.2.1.mData, r.2.1.clock, d.trace ++ emitted c r.2.1⟩, r.2.2)) := by
  induction ws with
  | nil =>
    intro c d hd hc
    by_cases hp : pred c.mData = true
    · simp [wait_until_loop, hp, hd, hc, emit, emitted]
    · simp [wait_until_loop, hp, hd]
  | cons w ws ih =>
    intro c d hd hc
    by_cases hp : pred c.mData = true
    · simp [wait_until_loop, hp, hd, hc, emit, emitted]
    · by_cases hs : w.status = cv_status.timeout
      · simp [wait_until_loop, hp, hs, hd, cv_wait_until, emit, emitted]
      · have h := ih (cv_wait_until t w (c.emit (.pred false)))
          (cv_wait_until t w (d.emit (.pred false)))
          (by simp [cv_wait_until, hd]) (by simp [cv_wait_until])
        simp only [wait_until_loop, hp, hd, hs]
        simp only [Bool.false_eq_true, if_false]
        rw [h]
        cases hl : wait_until_loop t pred ws (cv_wait_until t w (c.emit (.pred false))) with
        | none => rfl
        | some r =>
          obtain ⟨b, c1, rest⟩ := r
          obtain ⟨consumed, -, -, -, -, e5, -⟩ := wait_until_loop_some t pred ws _ _ _ _ hl
          simp [emitted, e5, cv_wait_until]

/-- What `wait` has done when it returns. -/
theorem LLCond.wait_some (pred : α → Bool) (ws : List (Wakeup α))
    (c c1 : LLCond α) (rest : List (Wakeup α))
    (h : wait pred c ws = some (c1, rest)) :
    ∃ consumed : List (Wakeup α),
      ws = consumed ++ rest ∧
      c1.mData = Wakeup.observe c.mData consumed ∧
      pred c1.mData = true ∧
      c1.clock = clock_after c.clock consumed ∧
      c1.trace = c.trace ++ (.lock :: wait_events consumed.length ++ [.unlock]) ∧
      ∀ k, k < consumed.length →
        pred (Wakeup.observe c.mData (consumed.take k)) = false := by
  unfold wait at h
  cases hl : wait_loop pred ws (c.emit .lock) with
  | none => simp [hl] at h
  | some r =>
    obtain ⟨c2, rest2⟩ := r
    simp [hl] at h
    obtain ⟨h1, h2⟩ := h
    subst h1; subst h2
    obtain ⟨consumed, e1, e2, e3, e4, e5, e6⟩ := wait_loop_some pred ws _ _ _ hl
    exact ⟨consumed, e1, by simpa using e2, by simpa using e3, by simpa using e4,
      by simp [e5], by simpa using e6⟩

/-- A predicate that holds at the call: `wait` is lock, one evaluation,
unlock, and consumes no wakeup. -/
theorem LLCond.wait_of_true (pred : α → Bool) (c : LLCond α) (ws : List (Wakeup α))
    (hp : pred c.mData = true) :
    wait pred c ws
      = some (⟨c.mData, c.clock, c.trace ++ [.lock, .pred true, .unlock]⟩, ws) := by
  unfold wait
  rw [wait_loop_of_true pred ws (c.emit .lock) (by simpa using hp)]
  simp [emit]

/-- A predicate that holds at the call: `wait_until` returns true after lock,
one evaluation, unlock, and consumes no wakeup. -/
theorem LLCond.wait_until_of_true (t : Int) (pred : α → Bool) (c : LLCond α)
    (ws : List (Wakeup α)) (hp : pred c.mData = true) :
    wait_until t pred c ws
      = some (true, ⟨c.mData, c.clock, c.trace ++ [.lock, .pred true, .unlock]⟩, ws) := by
  unfold wait_until
  rw [wait_until_loop_of_true t pred ws (c.emit .lock) (by simpa using hp)]
  simp [emit]

/-- A predicate that holds at the call: `wait_for` returns true after the
clock reading, lock, one evaluation, unlock, and consumes no wakeup. -/
theorem LLCond.wait_for_of_true (d : Int) (pred : α → Bool) (c : LLCond α)
    (ws : List (Wakeup α)) (hp : pred c.mData = true) :
    wait_for d pred c ws
      = some (true,
          ⟨c.mData, c.clock, c.trace ++ [.now c.clock, .lock, .pred true, .unlock]⟩, ws) := by
  unfold wait_for
  rw [wait_until_of_true _ pred (c.emit (.now c.clock)) ws (by simpa using hp)]
  simp [emit]

/-- A predicate false of every value observed: `wait` has not returned. -/
theorem LLCond.wait_none_of_false (pred : α → Bool) (c : LLCond α) (ws : List (Wakeup α))
    (h : ∀ k, k ≤ ws.length → pred (Wakeup.observe c.mData (ws.take k)) = false) :
    wait pred c ws = none := by
  cases hw : wait pred c ws with
  | none => rfl
  | some r =>
    obtain ⟨c1, rest⟩ := r
    obtain ⟨consumed, e1, e2, e3, -⟩ := wait_some pred ws c c1 rest hw
    have hk := h consumed.length (by rw [e1]; simp)
    rw [e1, List.take_left, ← e2, e3] at hk
    cases hk

/-- A caller blocked in `wait` returns at the first wakeup after which the
predicate holds. -/
theorem LLCond.wait_after_wakeup (pred : α → Bool) (c : LLCond α) (w : Wakeup α)
    (rest : List (Wakeup α)) (h0 : pred c.mData = false)
    (h1 : pred (w.apply c.mData) = true) :
    wait pred c (w :: rest)
      = some (⟨w.apply c.mData, w.now,
          c.trace ++ [.lock, .pred false, .wait, .pred true, .unlock]⟩, rest) := by
  have hl : wait_loop pred (w :: rest) (c.emit .lock)
      = wait_loop pred rest (cv_wait w ((c.emit .lock).emit (.pred false))) := by
    simp [wait_loop, h0]
  unfold wait
  rw [hl, wait_loop_of_true pred rest _ (by simpa [cv_wait] using h1)]
  simp [emit, cv_wait]

/-- On a latch that stores true, a call that does not pass false to
`set_one` or `set_all` returns, consumes no wakeup and leaves true stored. -/
theorem LLOneShotCond.run_op_keeps_true (op : LatchOp) (c : LLCond Bool)
    (ws : List (Wakeup Bool)) (hc : c.mData = true)
    (h1 : op ≠ LatchOp.set_one false) (h2 : op ≠ LatchOp.set_all false) :
    ∃ c1, LLOneShotCond.run_op op c ws = some (c1, ws) ∧ c1.mData = true := by
  have hp : (fun data : Bool => data == true) c.mData = true := by simp [hc]
  cases op with
  | set_one v =>
    cases v with
    | false => exact absurd rfl h1
    | true => exact ⟨_, rfl, rfl⟩
  | set_all v =>
    cases v with
    | false => exact absurd rfl h2
    | true => exact ⟨_, rfl, rfl⟩
  | wait =>
    refine ⟨⟨c.mData, c.clock, c.trace ++ [.lock, .pred true, .unlock]⟩, ?_, hc⟩
    exact wait_of_true (fun data : Bool => data == true) c ws hp
  | wait_until t =>
    refine ⟨⟨c.mData, c.clock, c.trace ++ [.lock, .pred true, .unlock]⟩, ?_, hc⟩
    simp only [LLOneShotCond.run_op, LLOneShotCond.wait_until, LLScalarCond.wait_until_equal]
    rw [wait_until_of_true t (fun data : Bool => data == true) c ws hp]
    rfl
  | wait_for d =>
    refine ⟨⟨c.mData, c.clock, c.trace ++ [.now c.clock, .lock, .pred true, .unlock]⟩, ?_, hc⟩
    simp only [LLOneShotCond.run_op, LLOneShotCond.wait_for, LLScalarCond.wait_for_equal]
    rw [wait_for_of_true d (fun data : Bool => data == true) c ws hp]
    rfl

/-- On a latch that stores true, a sequence of calls none of which passes
false to `set_one` or `set_all` runs to its end, consumes no wakeup and
leaves true stored. -/
theorem LLOneShotCond.run_ops_keeps_true (ops : List LatchOp) :
    ∀ (c : LLCond Bool) (ws : List (Wakeup Bool)), c.mData = true →
      (∀ op ∈ ops, op ≠ LatchOp.set_one false ∧ op ≠ LatchOp.set_all false) →
      ∃ c1, LLOneShotCond.run_ops ops c ws = some (c1, ws) ∧ c1.mData = true := by
  induction ops with
  | nil =>
    intro c ws hc _
    exact ⟨c, rfl, hc⟩
  | cons op ops ih =>
    intro c ws hc hops
    obtain ⟨c1, e1, e2⟩ := LLOneShotCond.run_op_keeps_true op c ws hc
      (hops op (List.mem_cons_self _ _)).1 (hops op (List.mem_cons_self _ _)).2
    obtain ⟨c2, e3, e4⟩ := ih c1 ws e2 (fun o ho => hops o (List.mem_cons_of_mem _ ho))
    exact ⟨c2, by simp [LLOneShotCond.run_ops, e1, e3], e4⟩

/-- A `wait_until` that returns false has consumed a last wakeup, and that
wakeup reported timeout. -/
theorem LLCond.wait_until_false_split (t : Int) (pred : α → Bool) (ws : List (Wakeup α))
    (c c1 : LLCond α) (rest : List (Wakeup α))
    (h : wait_until t pred c ws = some (false, c1, rest)) :
    ∃ pre w, ws = pre ++ w :: rest ∧ w.status = cv_status.timeout := by
  obtain ⟨consumed, e1, -, -, -, -, -, -, e8⟩ := wait_until_some t pred ws c c1 false rest h
  obtain ⟨w, hw1, hw2⟩ := e8 rfl
  have hne : consumed ≠ [] := by
    intro hnil
    rw [hnil] at hw1
    simp at hw1
  have hlast : consumed.getLast hne = w := by
    rw [List.getLast?_eq_getLast _ hne] at hw1
    exact Option.some.inj hw1
  refine ⟨consumed.dropLast, w, ?_, hw2⟩
  rw [e1]
  conv_lhs => rw [← List.dropLast_append_getLast hne, hlast]
  simp

/-- A caller that finds the predicate false at the call and after each
wakeup of `pre` but the last, and true after the last, returns from `wait`
there: it consumes exactly `pre`. -/
theorem LLCond.wait_at_first (pred : α → Bool) (rest : List (Wakeup α)) :
    ∀ (pre : List (Wakeup α)) (c : LLCond α),
      (∀ k, k < pre.length → pred (Wakeup.observe c.mData (pre.take k)) = false) →
      pred (Wakeup.observe c.mData pre) = true →
      wait pred c (pre ++ rest)
        = some (⟨Wakeup.observe c.mData pre, clock_after c.clock pre,
            c.trace ++ (.lock :: wait_events pre.length ++ [.unlock])⟩, rest) := by
  have hloop : ∀ (pre : List (Wakeup α)) (c : LLCond α),
      (∀ k, k < pre.length → pred (Wakeup.observe c.mData (pre.take k)) = false) →
      pred (Wakeup.observe c.mData pre) = true →
      wait_loop pred (pre ++ rest) c
        = some (⟨Wakeup.observe c.mData pre, clock_after c.clock pre,
            c.trace ++ wait_events pre.length⟩, rest) := by
    intro pre
    induction pre with
    | nil =>
      intro c _ hp
      rw [List.nil_append, wait_loop_of_true pred rest c (by simpa using hp)]
      simp [emit, clock_after, wait_events]
    | cons x pre ih =>
      intro c hk hp
      have h0 : pred c.mData = false := by simpa using hk 0 (by simp)
      have h := ih (cv_wait x (c.emit (.pred false)))
        (fun k hk1 => by
          have := hk (k + 1) (by simpa using hk1)
          simpa [cv_wait] using this)
        (by simpa [cv_wait] using hp)
      have hstep : wait_loop pred (x :: pre ++ rest) c
          = wait_loop pred (pre ++ rest) (cv_wait x (c.emit (.pred false))) := by
        simp [wait_loop, h0]
      rw [hstep, h]
      simp [cv_wait, emit, clock_after, wait_events]
  intro pre c hk hp
  unfold wait
  rw [hloop pre (c.emit .lock) (by simpa using hk) (by simpa using hp)]
  simp [emit]

/-- The loop of `wait`, left under the lock, accesses the value and waits
only while the mutex is owned. -/
theorem LLCond.guarded_wait_events (n : Nat) :
    guarded true (wait_events n ++ [.unlock]) = true := by
  induction n with
  | zero => rfl
  | succ n ih => simpa [wait_events, guarded] using ih

/-- The loop of `wait_until`, left under the lock, accesses the value and
waits only while the mutex is owned. -/
theorem LLCond.guarded_wait_until_events (t : Int) (b : Bool) (sts : List cv_status) :
    guarded true (wait_until_events t sts b ++ [.unlock]) = true := by
  induction sts with
  | nil => rfl
  | cons x xs ih => simpa [wait_until_events, guarded] using ih

/-- The number of evaluations of the predicate in the loop of `wait`. -/
theorem LLCond.wait_events_preds (n : Nat) :
    ((wait_events n).filter (fun e => e matches .pred _)).length = n + 1 := by
  induction n with
  | zero => rfl
  | succ n ih => simpa [wait_events] using ih

/-- The number of waits on the condition variable in the loop of `wait`. -/
theorem LLCond.wait_events_waits (n : Nat) : (wait_events n).count .wait = n := by
  induction n with
  | zero => rfl
  | succ n ih => simpa [wait_events] using ih

/-- The record after a run of updates: the record before it and, for each
call, lock, modify, unlock and one notification. -/
theorem Update.run_all_spec (us : List (Update α)) :
    ∀ c : LLCond α,
      (Update.run_all us c).mData = us.foldl (fun v u => u.modify v) c.mData ∧
      (Update.run_all us c).clock = c.clock ∧
      ∃ s, (Update.run_all us c).trace = c.trace ++ s ∧
        s.countP is_notify = us.length ∧
        s.count .lock = us.length ∧ s.count .modify = us.length := by
  induction us with
  | nil =>
    intro c
    exact ⟨rfl, rfl, [], by simp [Update.run_all], rfl, rfl, rfl⟩
  | cons u us ih =>
    intro c
    obtain ⟨h1, h2, s, h3, h4, h5, h6⟩ := ih (u.run c)
    have hrun : Update.run_all (u :: us) c = Update.run_all us (u.run c) := rfl
    rw [hrun]
    cases u with
    | one m =>
      refine ⟨h1, h2, [.lock, .modify, .unlock, .notify_one] ++ s, ?_, ?_, ?_, ?_⟩
      · rw [h3]
        simp [Update.run, update_one, locked_modify, emit]
      · rw [List.countP_append, h4]
        simp [is_notify, List.countP_cons]
        omega
      · rw [List.count_append, h5]
        simp [List.count_cons]
        omega
      · rw [List.count_append, h6]
        simp [List.count_cons]
        omega
    | all m =>
      refine ⟨h1, h2, [.lock, .modify, .unlock, .notify_all] ++ s, ?_, ?_, ?_, ?_⟩
      · rw [h3]
        simp [Update.run, update_all, locked_modify, emit]
      · rw [List.countP_append, h4]
        simp [is_notify, List.countP_cons]
        omega
      · rw [List.count_append, h5]
        simp [List.count_cons]
        omega
      · rw [List.count_append, h6]
        simp [List.count_cons]
        omega

/-- The entries kept by actions that keep `xs` and then delete `ys`. -/
theorem LLDiskCache.kept_split (xs ys : List LLDiskCache.file_info_t) :
    LLDiskCache.kept (xs.map (fun x => (false, x)) ++ ys.map (fun x => (true, x))) = xs := by
  simp [LLDiskCache.kept, List.filter_map, Function.comp_def]

/-- The entries deleted by actions that keep `xs` and then delete `ys`. -/
theorem LLDiskCache.deleted_split (xs ys : List LLDiskCache.file_info_t) :
    LLDiskCache.deleted (xs.map (fun x => (false, x)) ++ ys.map (fun x => (true, x)))
      = ys := by
  simp [LLDiskCache.deleted, List.filter_map, Function.comp_def]

/-- As long as the running total does not wrap, the loop of `purge` keeps
the first `k` entries and deletes all the others, `k` being the number of
entries up to which the running total stays within the maximum. -/
theorem LLDiskCache.purge_loop_split (mMaxSizeBytes : Nat) :
    ∀ (l : List LLDiskCache.file_info_t) (total : Nat) (d : CacheDir),
      total + (LLDiskCache.sizes l).sum < LLDiskCache.UINTMAX_MOD →
      ∃ k, k ≤ l.length ∧
        (LLDiskCache.purge_loop mMaxSizeBytes l total d).1
          = (l.take k).map (fun x => (false, x)) ++ (l.drop k).map (fun x => (true, x)) ∧
        (k = 0 ∨ total + (LLDiskCache.sizes (l.take k)).sum ≤ mMaxSizeBytes) ∧
        (k < l.length →
          mMaxSizeBytes < total + (LLDiskCache.sizes (l.take (k + 1))).sum) := by
  intro l
  induction l with
  | nil =>
    intro total d _
    exact ⟨0, Nat.le_refl _, rfl, Or.inl rfl, fun h => absurd h (Nat.lt_irrefl _)⟩
  | cons e rest ih =>
    intro total d hno
    have hsum : (LLDiskCache.sizes (e :: rest)).sum = e.2.1 + (LLDiskCache.sizes rest).sum := by
      simp [LLDiskCache.sizes]
    rw [hsum] at hno
    have hmod : (total + e.2.1) % LLDiskCache.UINTMAX_MOD = total + e.2.1 :=
      Nat.mod_eq_of_lt (by omega)
    by_cases hgt : mMaxSizeBytes < total + e.2.1
    · obtain ⟨k, _, hk2, hk3, _⟩ := ih (total + e.2.1) (LLDiskCache.remove e.2.2 d) (by omega)
      have hk0 : k = 0 := by
        rcases hk3 with h | h
        · exact h
        · omega
      subst hk0
      refine ⟨0, Nat.zero_le _, ?_, Or.inl rfl, ?_⟩
      · simp only [LLDiskCache.purge_loop, hmod, gt_iff_lt, hgt, if_true]
        rw [hk2]
        simp
      · intro _
        simpa [LLDiskCache.sizes] using hgt
    · obtain ⟨k, hk1, hk2, hk3, hk4⟩ := ih (total + e.2.1) d (by omega)
      refine ⟨k + 1, by simpa using hk1, ?_, Or.inr ?_, ?_⟩
      · simp only [LLDiskCache.purge_loop, hmod, gt_iff_lt, hgt, if_false]
        rw [hk2]
        simp
      · have hle : total + e.2.1 ≤ mMaxSizeBytes := Nat.le_of_not_lt hgt
        rcases hk3 with h | h
        · subst h
          simpa [LLDiskCache.sizes, Nat.add_assoc] using hle
        · simpa [LLDiskCache.sizes, Nat.add_assoc] using h
      · intro hlt
        have := hk4 (by simpa using hlt)
        simpa [LLDiskCache.sizes, Nat.add_assoc] using this

/-- Every entry the loop of `purge` acts on is an entry of its list. -/
theorem LLDiskCache.purge_loop_mem (mMaxSizeBytes : Nat) :
    ∀ (l : List LLDiskCache.file_info_t) (total : Nat) (d : CacheDir),
      ∀ a ∈ (LLDiskCache.purge_loop mMaxSizeBytes l total d).1, a.2 ∈ l := by
  intro l
  induction l with
  | nil =>
    intro total d a ha
    simp [LLDiskCache.purge_loop] at ha
  | cons e rest ih =>
    intro total d a ha
    simp only [LLDiskCache.purge_loop] at ha
    split at ha
    · rcases List.mem_cons.mp ha with h | h
      · rw [h]; exact List.mem_cons_self _ _
      · exact List.mem_cons_of_mem _ (ih _ _ a h)
    · rcases List.mem_cons.mp ha with h | h
      · rw [h]; exact List.mem_cons_self _ _
      · exact List.mem_cons_of_mem _ (ih _ _ a h)

/-- The loop of `purge` only removes entries, and only entries whose path
is the path of an entry of its list. -/
theorem LLDiskCache.purge_loop_entries (mMaxSizeBytes : Nat) :
    ∀ (l : List LLDiskCache.file_info_t) (total : Nat) (d : CacheDir),
      (LLDiskCache.purge_loop mMaxSizeBytes l total d).2.is_directory = d.is_directory ∧
      (LLDiskCache.purge_loop mMaxSizeBytes l total d).2.entries.Sublist d.entries ∧
      ∀ entry ∈ d.entries, (∀ x ∈ l, x.2.2 ≠ entry.path) →
        entry ∈ (LLDiskCache.purge_loop mMaxSizeBytes l total d).2.entries := by
  intro l
  induction l with
  | nil =>
    intro total d
    exact ⟨rfl, List.Sublist.refl _, fun entry h _ => h⟩
  | cons e rest ih =>
    intro total d
    simp only [LLDiskCache.purge_loop]
    split
    · obtain ⟨h1, h2, h3⟩ := ih ((total + e.2.1) % LLDiskCache.UINTMAX_MOD)
        (LLDiskCache.remove e.2.2 d)
      refine ⟨h1, h2.trans (List.filter_sublist _), ?_⟩
      intro entry hmem hx
      apply h3 entry
      · have hne : entry.path ≠ e.2.2 := fun h => hx e (List.mem_cons_self _ _) h.symm
        simp [LLDiskCache.remove, hmem, hne]
      · exact fun x hxr => hx x (List.mem_cons_of_mem _ hxr)
    · obtain ⟨h1, h2, h3⟩ := ih ((total + e.2.1) % LLDiskCache.UINTMAX_MOD) d
      exact ⟨h1, h2, fun entry hmem hx =>
        h3 entry hmem (fun x hxr => hx x (List.mem_cons_of_mem _ hxr))⟩

/-- The sorted `file_info` is a rearrangement of `file_info`. -/
theorem LLDiskCache.sort_file_info_perm (l : List LLDiskCache.file_info_t) :
    (LLDiskCache.sort_file_info l).Perm l :=
  List.perm_insertionSort _ l

/-- In the sorted `file_info` no entry comes after one with an earlier time. -/
theorem LLDiskCache.sort_file_info_sorted (l : List LLDiskCache.file_info_t) :
    (LLDiskCache.sort_file_info l).Pairwise (fun x y => y.1 ≤ x.1) := by
  haveI : IsTotal LLDiskCache.file_info_t (fun x y => y.1 ≤ x.1) :=
    ⟨fun a b => le_total b.1 a.1⟩
  haveI : IsTrans LLDiskCache.file_info_t (fun x y => y.1 ≤ x.1) :=
    ⟨fun _ _ _ hab hbc => le_trans hbc hab⟩
  exact List.sorted_insertionSort (fun x y : LLDiskCache.file_info_t => y.1 ≤ x.1) l

/-- Sorting leaves the sum of the sizes as it is. -/
theorem LLDiskCache.sizes_sort_sum (l : List LLDiskCache.file_info_t) :
    (LLDiskCache.sizes (LLDiskCache.sort_file_info l)).sum = (LLDiskCache.sizes l).sum :=
  ((LLDiskCache.sort_file_info_perm l).map _).sum_eq

/-- Every entry of `file_info` comes from a selected entry of the directory. -/
theorem LLDiskCache.file_info_mem (d : CacheDir) (x : LLDiskCache.file_info_t)
    (hx : x ∈ LLDiskCache.file_info d) :
    ∃ entry ∈ d.entries, LLDiskCache.is_cache_file entry = true ∧ x.2.2 = entry.path := by
  unfold LLDiskCache.file_info LLDiskCache.cache_files at hx
  by_cases hd : d.is_directory = true
  · simp only [hd, if_true, List.mem_map, List.mem_filter] at hx
    obtain ⟨entry, ⟨h1, h2⟩, h3⟩ := hx
    exact ⟨entry, h1, h2, by rw [← h3]⟩
  · simp [hd] at hx

/-- What the loop of `clearCache` leaves of a directory: the entries whose
path is not the path of a selected entry it visits. -/
theorem LLDiskCache.clearCache_loop_mem (entry : DirEntry) :
    ∀ (l : List DirEntry) (acc : CacheDir),
      entry ∈ (l.foldl (fun acc x =>
          if LLDiskCache.is_cache_file x then LLDiskCache.remove x.path acc else acc)
          acc).entries ↔
        entry ∈ acc.entries ∧
          ∀ x ∈ l, LLDiskCache.is_cache_file x = true → x.path ≠ entry.path := by
  intro l
  induction l with
  | nil =>
    intro acc
    simp
  | cons x l ih =>
    intro acc
    rw [List.foldl_cons, ih]
    by_cases hx : LLDiskCache.is_cache_file x = true
    · simp only [hx, if_true, LLDiskCache.remove, List.mem_filter, List.mem_cons,
        forall_eq_or_imp, bne_iff_ne, ne_eq, true_implies]
      constructor
      · rintro ⟨⟨h1, h2⟩, h3⟩
        exact ⟨h1, fun h => h2 h.symm, h3⟩
      · rintro ⟨h1, h2, h3⟩
        exact ⟨⟨h1, fun h => h2 h.symm⟩, h3⟩
    · simp only [hx, List.mem_cons, forall_eq_or_imp]
      simp

/-- The loop of `clearCache` only removes entries. -/
theorem LLDiskCache.clearCache_loop_sublist :
    ∀ (l : List DirEntry) (acc : CacheDir),
      (l.foldl (fun acc x =>
          if LLDiskCache.is_cache_file x then LLDiskCache.remove x.path acc else acc)
          acc).entries.Sublist acc.entries := by
  intro l
  induction l with
  | nil =>
    intro acc
    exact List.Sublist.refl _
  | cons x l ih =>
    intro acc
    rw [List.foldl_cons]
    by_cases hx : LLDiskCache.is_cache_file x = true
    · simp only [hx, if_true]
      exact (ih _).trans (List.filter_sublist _)
    · simp only [hx]
      exact ih acc

/-- The loop of `dirFileSize` adds up, modulo the range of `uintmax_t`, the
sizes of the selected entries. -/
theorem LLDiskCache.dirFileSize_loop :
    ∀ (l : List DirEntry) (a : Nat),
      l.foldl (fun total x =>
          if LLDiskCache.is_cache_file x then (total + x.file_size) % LLDiskCache.UINTMAX_MOD
          else total) (a % LLDiskCache.UINTMAX_MOD)
        = (a + ((l.filter LLDiskCache.is_cache_file).map DirEntry.file_size).sum)
            % LLDiskCache.UINTMAX_MOD := by
  intro l
  induction l with
  | nil =>
    intro a
    simp
  | cons x l ih =>
    intro a
    rw [List.foldl_cons]
    by_cases hx : LLDiskCache.is_cache_file x = true
    · simp only [hx, if_true, List.filter_cons_of_pos, List.map_cons, List.sum_cons]
      rw [Nat.mod_add_mod, ih, Nat.add_assoc]
    · have hx1 : LLDiskCache.is_cache_file x = false := by simpa using hx
      simp only [hx1, List.filter_cons, Bool.false_eq_true, if_false]
      exact ih a

/-- A sum inside the range of the 64-bit count is not changed by the
wrap-around. -/
theorem LLCond.chrono_add_in_range (now d : Int)
    (hlo : -9223372036854775808 ≤ now + d) (hhi : now + d < 9223372036854775808) :
    chrono_add now d = now + d := by
  unfold chrono_add
  rw [Int.emod_eq_of_lt (by omega) (by omega)]
  omega

/-- The method `wait_until` run to the first report of timeout: wakeups
`pre` that report no timeout and after which the predicate is false, then
the wakeup `w` that reports timeout; the result is the final check. -/
theorem LLCond.wait_until_at_timeout (t : Int) (pred : α → Bool) (w : Wakeup α)
    (rest : List (Wakeup α)) (hw : w.status = cv_status.timeout)
    (pre : List (Wakeup α)) (c : LLCond α)
    (hpre : ∀ x ∈ pre, x.status = cv_status.no_timeout)
    (hk : ∀ k, k ≤ pre.length → pred (Wakeup.observe c.mData (pre.take k)) = false) :
    wait_until t pred c (pre ++ w :: rest)
      = some (pred (Wakeup.observe c.mData (pre ++ [w])),
          ⟨Wakeup.observe c.mData (pre ++ [w]), w.now,
            c.trace ++ (.lock :: wait_until_events t ((pre ++ [w]).map Wakeup.status)
              (pred (Wakeup.observe c.mData (pre ++ [w]))) ++ [.unlock])⟩,
          rest) := by
  unfold wait_until
  rw [wait_until_loop_timeout t pred w rest hw pre (c.emit .lock) hpre
    (by simpa using hk)]
  simp [emit]

/-- A caller of `wait_until` that finds the predicate false at the call and
after each wakeup of `pre` but the last, none of them reporting timeout, and
true after the last, returns true there: it consumes exactly `pre`. -/
theorem LLCond.wait_until_at_first (t : Int) (pred : α → Bool) (rest : List (Wakeup α)) :
    ∀ (pre : List (Wakeup α)) (c : LLCond α),
      (∀ x ∈ pre, x.status = cv_status.no_timeout) →
      (∀ k, k < pre.length → pred (Wakeup.observe c.mData (pre.take k)) = false) →
      pred (Wakeup.observe c.mData pre) = true →
      wait_until t pred c (pre ++ rest)
        = some (true, ⟨Wakeup.observe c.mData pre, clock_after c.clock pre,
            c.trace ++ (.lock :: wait_until_events t (pre.map Wakeup.status) true
              ++ [.unlock])⟩, rest) := by
  have hloop : ∀ (pre : List (Wakeup α)) (c : LLCond α),
      (∀ x ∈ pre, x.status = cv_status.no_timeout) →
      (∀ k, k < pre.length → pred (Wakeup.observe c.mData (pre.take k)) = false) →
      pred (Wakeup.observe c.mData pre) = true →
      wait_until_loop t pred (pre ++ rest) c
        = some (true, ⟨Wakeup.observe c.mData pre, clock_after c.clock pre,
            c.trace ++ wait_until_events t (pre.map Wakeup.status) true⟩, rest) := by
    intro pre
    induction pre with
    | nil =>
      intro c _ _ hp
      rw [List.nil_append, wait_until_loop_of_true t pred rest c (by simpa using hp)]
      simp [emit, clock_after, wait_until_events]
    | cons x pre ih =>
      intro c hst hk hp
      have h0 : pred c.mData = false := by simpa using hk 0 (by simp)
      have hx : x.status = cv_status.no_timeout := hst x (List.mem_cons_self _ _)
      have hx1 : ¬ x.status = cv_status.timeout := by rw [hx]; decide
      have h := ih (cv_wait_until t x (c.emit (.pred false)))
        (fun y hy => hst y (List.mem_cons_of_mem _ hy))
        (fun k hk1 => by
          have := hk (k + 1) (by simpa using hk1)
          simpa [cv_wait_until] using this)
        (by simpa [cv_wait_until] using hp)
      have hstep : wait_until_loop t pred (x :: pre ++ rest) c
          = wait_until_loop t pred (pre ++ rest)
              (cv_wait_until t x (c.emit (.pred false))) := by
        simp [wait_until_loop, h0, hx1]
      rw [hstep, h]
      simp [cv_wait_until, emit, clock_after, wait_until_events, hx]
  intro pre c hst hk hp
  unfold wait_until
  rw [hloop pre (c.emit .lock) hst (by simpa using hk) (by simpa using hp)]
  simp [emit]

/-- The operations of a finished `wait_for`: the clock reading, the lock,
the loop of `wait_until` with the wrapped sum as its deadline, the unlock. -/
theorem LLCond.wait_for_emitted (d : Int) (pred : α → Bool) (c c1 : LLCond α) (b : Bool)
    (ws rest : List (Wakeup α)) (h : wait_for d pred c ws = some (b, c1, rest)) :
    ∃ consumed : List (Wakeup α),
      ws = consumed ++ rest ∧
      emitted c c1
        = .now c.clock :: .lock ::
            wait_until_events (chrono_add c.clock d) (consumed.map Wakeup.status) b
              ++ [.unlock] := by
  unfold wait_for at h
  obtain ⟨consumed, e1, -, -, -, e5, -⟩ := wait_until_some _ pred ws _ c1 b rest h
  refine ⟨consumed, e1, ?_⟩
  apply emitted_of_trace
  simp [e5]

/-- The vector `file_info` holds the record of each selected entry. -/
theorem LLDiskCache.file_info_eq (d : CacheDir) :
    LLDiskCache.file_info d = (LLDiskCache.cache_files d).map LLDiskCache.file_info_of :=
  rfl

/-- The method `purge()` is `purge_with` for the order insertion sort gives. -/
theorem LLDiskCache.purge_eq_purge_with (mMaxSizeBytes : Nat) (d : CacheDir) :
    LLDiskCache.purge mMaxSizeBytes d
      = LLDiskCache.purge_with mMaxSizeBytes
          (LLDiskCache.sort_file_info (LLDiskCache.file_info d)) d :=
  rfl

/-- The order insertion sort gives is one `std::sort` may leave. -/
theorem LLDiskCache.sort_file_info_std (l : List LLDiskCache.file_info_t) :
    LLDiskCache.is_std_sorted (LLDiskCache.sort_file_info l) l :=
  ⟨LLDiskCache.sort_file_info_perm l, LLDiskCache.sort_file_info_sorted l⟩

/-- The directory the loop of `purge` leaves: the entries whose path is not
the path of an entry with the action DELETE. -/
theorem LLDiskCache.purge_loop_dir (mMaxSizeBytes : Nat) :
    ∀ (l : List LLDiskCache.file_info_t) (total : Nat) (d : CacheDir),
      (LLDiskCache.purge_loop mMaxSizeBytes l total d).2.entries
        = d.entries.filter (fun entry => decide (entry.path ∉
            LLDiskCache.paths
              (LLDiskCache.deleted (LLDiskCache.purge_loop mMaxSizeBytes l total d).1))) := by
  intro l
  induction l with
  | nil =>
    intro total d
    simp [LLDiskCache.purge_loop, LLDiskCache.deleted, LLDiskCache.paths]
  | cons e rest ih =>
    intro total d
    simp only [LLDiskCache.purge_loop]
    split
    · have hdel : ∀ acts : List (Bool × LLDiskCache.file_info_t),
          LLDiskCache.deleted ((true, e) :: acts) = e :: LLDiskCache.deleted acts :=
        fun _ => rfl
      rw [ih]
      simp only [LLDiskCache.remove, List.filter_filter, hdel]
      apply List.filter_congr
      intro entry _
      by_cases h1 : entry.path = e.2.2
      · simp [LLDiskCache.paths, h1]
      · have hb : (entry.path == e.2.2) = false := beq_eq_false_iff_ne.mpr h1
        simp [LLDiskCache.paths, bne, hb]
    · have hkeep : ∀ acts : List (Bool × LLDiskCache.file_info_t),
          LLDiskCache.deleted ((false, e) :: acts) = LLDiskCache.deleted acts :=
        fun _ => rfl
      rw [ih]
      simp only [hkeep]

/-- The selected entries of the directory the loop of `purge` leaves: the
selected entries whose path is not the path of an entry with the action
DELETE. -/
theorem LLDiskCache.purge_loop_cache_files (mMaxSizeBytes : Nat)
    (l : List LLDiskCache.file_info_t) (total : Nat) (d : CacheDir) :
    LLDiskCache.cache_files (LLDiskCache.purge_loop mMaxSizeBytes l total d).2
      = (LLDiskCache.cache_files d).filter (fun entry => decide (entry.path ∉
          LLDiskCache.paths
            (LLDiskCache.deleted (LLDiskCache.purge_loop mMaxSizeBytes l total d).1))) := by
  unfold LLDiskCache.cache_files
  rw [(LLDiskCache.purge_loop_entries mMaxSizeBytes l total d).1]
  by_cases hd : d.is_directory = true
  · simp only [hd, if_true]
    rw [LLDiskCache.purge_loop_dir, List.filter_filter, List.filter_filter]
    apply List.filter_congr
    intro entry _
    exact Bool.and_comm _ _
  · simp [hd]

/-- Distinct paths in the directory make the records of `file_info` distinct. -/
theorem LLDiskCache.file_info_nodup (d : CacheDir)
    (hnd : (d.entries.map DirEntry.path).Nodup) : (LLDiskCache.file_info d).Nodup := by
  have hsub : ((LLDiskCache.cache_files d).map DirEntry.path).Sublist
      (d.entries.map DirEntry.path) := by
    unfold LLDiskCache.cache_files
    by_cases hd : d.is_directory = true
    · simp only [hd, if_true]
      exact (List.filter_sublist _).map _
    · simp [hd]
  have h1 : ((LLDiskCache.cache_files d).map DirEntry.path).Nodup := hnd.sublist hsub
  have h2 : ((LLDiskCache.file_info d).map (fun x => x.2.2)).Nodup := by
    rw [LLDiskCache.file_info_eq, List.map_map]
    exact h1
  exact List.Nodup.of_map _ h2

/-- A selected entry of a directory with distinct paths has the path of a
record of the sorted `file_info` only if that record is its own. -/
theorem LLDiskCache.path_mem_iff (d : CacheDir) (sorted part : List LLDiskCache.file_info_t)
    (hperm : sorted.Perm (LLDiskCache.file_info d))
    (hnd : (d.entries.map DirEntry.path).Nodup)
    (hpart : ∀ x ∈ part, x ∈ sorted)
    (entry : DirEntry) (he : entry ∈ LLDiskCache.cache_files d) :
    entry.path ∈ LLDiskCache.paths part ↔ LLDiskCache.file_info_of entry ∈ part := by
  have hent : ∀ e ∈ LLDiskCache.cache_files d, e ∈ d.entries := by
    intro e h
    unfold LLDiskCache.cache_files at h
    by_cases hd : d.is_directory = true
    · simp only [hd, if_true] at h
      exact (List.mem_filter.mp h).1
    · simp [hd] at h
  constructor
  · intro h
    obtain ⟨x, hx, hpx⟩ := List.mem_map.mp h
    have hx1 : x ∈ LLDiskCache.file_info d := hperm.mem_iff.mp (hpart x hx)
    rw [LLDiskCache.file_info_eq] at hx1
    obtain ⟨e1, he1, hxe⟩ := List.mem_map.mp hx1
    have hp : e1.path = entry.path := by
      rw [← hpx, ← hxe]
      rfl
    have heq : e1 = entry :=
      List.inj_on_of_nodup_map hnd (hent e1 he1) (hent entry he) hp
    rw [← heq, hxe]
    exact hx
  · intro h
    exact List.mem_map.mpr ⟨_, h, rfl⟩

/-- The sizes of the selected entries whose path is not the path of a
deleted record add up to at most the sizes of the kept records. -/
theorem LLDiskCache.remaining_sum_le (d : CacheDir)
    (sorted K D : List LLDiskCache.file_info_t)
    (hperm : sorted.Perm (LLDiskCache.file_info d)) (hs : sorted = K ++ D) :
    (((LLDiskCache.cache_files d).filter
        (fun entry => decide (entry.path ∉ LLDiskCache.paths D))).map
          DirEntry.file_size).sum
      ≤ (LLDiskCache.sizes K).sum := by
  have h1 : ((LLDiskCache.cache_files d).filter
        (fun entry => decide (entry.path ∉ LLDiskCache.paths D))).map DirEntry.file_size
      = LLDiskCache.sizes ((LLDiskCache.file_info d).filter
          (fun x => decide (x.2.2 ∉ LLDiskCache.paths D))) := by
    rw [LLDiskCache.file_info_eq, List.filter_map]
    simp [LLDiskCache.sizes, LLDiskCache.file_info_of, Function.comp_def]
  have h2 : ((LLDiskCache.file_info d).filter
        (fun x => decide (x.2.2 ∉ LLDiskCache.paths D))).Perm
      (sorted.filter (fun x => decide (x.2.2 ∉ LLDiskCache.paths D))) :=
    hperm.symm.filter _
  have h3 : sorted.filter (fun x => decide (x.2.2 ∉ LLDiskCache.paths D))
      = K.filter (fun x => decide (x.2.2 ∉ LLDiskCache.paths D)) := by
    rw [hs, List.filter_append]
    have hD : D.filter (fun x => decide (x.2.2 ∉ LLDiskCache.paths D)) = [] := by
      rw [List.filter_eq_nil_iff]
      intro a ha
      have : a.2.2 ∈ LLDiskCache.paths D := List.mem_map.mpr ⟨a, ha, rfl⟩
      simp [this]
    rw [hD, List.append_nil]
  rw [h1]
  have h4 : (LLDiskCache.sizes ((LLDiskCache.file_info d).filter
        (fun x => decide (x.2.2 ∉ LLDiskCache.paths D)))).sum
      = (LLDiskCache.sizes (K.filter
          (fun x => decide (x.2.2 ∉ LLDiskCache.paths D)))).sum := by
    rw [← h3]
    exact (h2.map _).sum_eq
  rw [h4]
  exact ((List.filter_sublist _).map _).sum_le_sum (fun a _ => Nat.zero_le a)

end aux

/-! ## The claims -/

/-- C1: for every stored value and every mutator, `update_one` leaves the
stored value equal to the mutator applied to the old value, and performs
exactly lock, modify, unlock, `notify_one`: one `notify_one`, no
`notify_all`. -/
theorem update_one_effect {α : Type} (modify : α → α) (c : LLCond α) :
    (update_one modify c).mData = modify c.mData ∧
    emitted c (update_one modify c) = [.lock, .modify, .unlock, .notify_one] ∧
    (emitted c (update_one modify c)).count .notify_one = 1 ∧
    (emitted c (update_one modify c)).count .notify_all = 0 := by
  have h : emitted c (update_one modify c) = [.lock, .modify, .unlock, .notify_one] := by
    simp [emitted, update_one, locked_modify, emit]
  refine ⟨rfl, h, ?_, ?_⟩ <;> rw [h] <;> decide

/-- C2: for every predicate and every sequence of wakeups on which `wait`
returns, the predicate holds of the stored value at the moment `wait`
returns, that value being the one observed after the wakeups consumed. -/
theorem wait_returns_pred_true {α : Type} (pred : α → Bool) (c c1 : LLCond α)
    (ws rest : List (Wakeup α)) (h : wait pred c ws = some (c1, rest)) :
    pred c1.mData = true ∧
    ∃ consumed : List (Wakeup α),
      ws = consumed ++ rest ∧ c1.mData = Wakeup.observe c.mData consumed := by
  obtain ⟨consumed, e1, e2, e3, -⟩ := wait_some pred ws c c1 rest h
  exact ⟨e3, consumed, e1, e2⟩

/-- A run of C2: the value is 0, one spurious wakeup, then a wakeup after
another context has stored 3. -/
theorem wait_returns_pred_true_witness :
    (fun v : Nat => v == 3) 3 = true ∧
    ∃ consumed : List (Wakeup Nat),
      [⟨.no_timeout, 1, []⟩, ⟨.no_timeout, 2, [(2, fun _ => 3)]⟩, ⟨.no_timeout, 3, []⟩]
        = consumed ++ [⟨.no_timeout, 3, []⟩] ∧
      (3 : Nat) = Wakeup.observe 0 consumed :=
  wait_returns_pred_true (fun v : Nat => v == 3) ⟨0, 0, []⟩
    ⟨3, 2, [.lock, .pred false, .wait, .pred false, .wait, .pred true, .unlock]⟩
    [⟨.no_timeout, 1, []⟩, ⟨.no_timeout, 2, [(2, fun _ => 3)]⟩, ⟨.no_timeout, 3, []⟩]
    [⟨.no_timeout, 3, []⟩] rfl

/-- C3: if the predicate is already true of the stored value when `wait` is
called, `wait` returns without blocking: it consumes no wakeup, calls no
wait on the condition variable, evaluates the predicate exactly once, and
all it does is lock, one evaluation, unlock. -/
theorem wait_immediate {α : Type} (pred : α → Bool) (c : LLCond α)
    (ws : List (Wakeup α)) (hp : pred c.mData = true) :
    wait pred c ws
      = some (⟨c.mData, c.clock, c.trace ++ [.lock, .pred true, .unlock]⟩, ws) ∧
    ∀ c1 rest, wait pred c ws = some (c1, rest) →
      rest = ws ∧
      Event.wait ∉ emitted c c1 ∧
      ((emitted c c1).filter (fun e => e matches .pred _)).length = 1 := by
  have h : wait pred c ws
      = some (⟨c.mData, c.clock, c.trace ++ [.lock, .pred true, .unlock]⟩, ws) := by
    unfold wait
    rw [wait_loop_of_true pred ws (c.emit .lock) (by simpa using hp)]
    simp [emit]
  refine ⟨h, ?_⟩
  intro c1 rest h1
  rw [h] at h1
  simp at h1
  obtain ⟨h2, h3⟩ := h1
  subst h2; subst h3
  simp [emitted]

/-- A run of C3: the stored value is 3 and the predicate asks for 3. -/
theorem wait_immediate_witness :
    wait (fun v : Nat => v == 3) ⟨3, 0, []⟩ [⟨.no_timeout, 1, [(1, fun _ => 0)]⟩]
      = some (⟨3, 0, [.lock, .pred true, .unlock]⟩, [⟨.no_timeout, 1, [(1, fun _ => 0)]⟩]) :=
  (wait_immediate (fun v : Nat => v == 3) ⟨3, 0, []⟩
    [⟨.no_timeout, 1, [(1, fun _ => 0)]⟩] rfl).1

/-- C4, as stated, fails on the code.  The deadline is 5, the stored value
is 0 and the predicate asks for the value 1.  First run: another context
stores 1 at clock 3 and 0 again at clock 4, the caller is woken without
timeout and owns the mutex at clock 4, finds 0, waits again, and the timed
wait reports timeout at clock 6 with 0 still stored: `wait_until` returns
false although the predicate became true of the stored value before the
deadline.  Second run: another context stores 1 at clock 6, after the
deadline; the timed wait reports timeout and the caller owns the mutex at
clock 7: `wait_until` returns true from its final check although the
predicate was true of no value stored up to the deadline. -/
theorem wait_until_not_iff_became_true :
    ((wait_until 5 (fun v : Nat => v == 1) ⟨0, 0, []⟩
        [⟨.no_timeout, 4, [(3, fun _ => 1), (4, fun _ => 0)]⟩, ⟨.timeout, 6, []⟩]).map
          (fun r => r.1) = some false ∧
      became_true_by 5 (fun v : Nat => v == 1) ⟨0, 0, []⟩
        [⟨.no_timeout, 4, [(3, fun _ => 1), (4, fun _ => 0)]⟩, ⟨.timeout, 6, []⟩] = true) ∧
    ((wait_until 5 (fun v : Nat => v == 1) ⟨0, 0, []⟩
        [⟨.timeout, 7, [(6, fun _ => 1)]⟩]).map (fun r => r.1) = some true ∧
      became_true_by 5 (fun v : Nat => v == 1) ⟨0, 0, []⟩
        [⟨.timeout, 7, [(6, fun _ => 1)]⟩] = false) := by
  decide

/-- C4, amended: whenever `wait_until` returns, it returns true if and only
if the predicate holds of the stored value at one of the checks it makes (at
the call or after one of the wakeups it consumes, the final check after a
timeout included), whatever the clock reads then, and false otherwise. -/
theorem wait_until_true_iff_checked {α : Type} (t : Int) (pred : α → Bool)
    (c c1 : LLCond α) (b : Bool) (ws rest : List (Wakeup α))
    (h : wait_until t pred c ws = some (b, c1, rest)) :
    ∃ consumed : List (Wakeup α),
      ws = consumed ++ rest ∧
      (b = true ↔
        ∃ k, k ≤ consumed.length ∧
          pred (Wakeup.observe c.mData (consumed.take k)) = true) := by
  obtain ⟨consumed, e1, e2, e3, -, -, e6, -, -⟩ := wait_until_some t pred ws c c1 b rest h
  refine ⟨consumed, e1, ?_, ?_⟩
  · intro hb
    refine ⟨consumed.length, Nat.le_refl _, ?_⟩
    rw [List.take_length, ← e2, e3, hb]
  · rintro ⟨k, hk, hpk⟩
    rcases Nat.lt_or_eq_of_le hk with hlt | heq
    · rw [e6 k hlt] at hpk
      cases hpk
    · subst heq
      rw [List.take_length, ← e2, e3] at hpk
      exact hpk

/-- A run of the amended C4: the value 1 is stored while the caller is
blocked and the wakeup reports no timeout. -/
theorem wait_until_true_iff_checked_witness :
    ∃ consumed : List (Wakeup Nat),
      [⟨.no_timeout, 2, [(1, fun _ => 1)]⟩] = consumed ++ [] ∧
      (true = true ↔
        ∃ k, k ≤ consumed.length ∧
          (fun v : Nat => v == 1) (Wakeup.observe 0 (consumed.take k)) = true) :=
  wait_until_true_iff_checked 5 (fun v : Nat => v == 1) ⟨0, 0, []⟩
    ⟨1, 2, [.lock, .pred false, .wait_until 5 .no_timeout, .pred true, .unlock]⟩ true
    [⟨.no_timeout, 2, [(1, fun _ => 1)]⟩] [] rfl

/-- C6: `wait_for` reads the clock exactly once; its result, the value, the
clock and the wakeups it leaves are those of `wait_until` called with the
sum of that reading and the duration, as the program computes it in the
64-bit count of the clock (the exact sum whenever that is in range), the
clock reading being the one operation it performs in addition; and every
timed wait it performs is given that same deadline. -/
theorem wait_for_is_wait_until {α : Type} (d : Int) (pred : α → Bool) (c : LLCond α)
    (ws : List (Wakeup α)) :
    wait_for d pred c ws
      = (wait_until (chrono_add c.clock d) pred c ws).map
          (fun r => (r.1,
            ⟨r.2.1.mData, r.2.1.clock, c.trace ++ .now c.clock :: emitted c r.2.1⟩,
            r.2.2)) ∧
    (-9223372036854775808 ≤ c.clock + d → c.clock + d < 9223372036854775808 →
      chrono_add c.clock d = c.clock + d) ∧
    ∀ b c1 rest, wait_for d pred c ws = some (b, c1, rest) →
      (emitted c c1).filter (fun e => e matches .now _) = [.now c.clock] ∧
      ∀ u st, Event.wait_until u st ∈ emitted c c1 → u = chrono_add c.clock d := by
  refine ⟨?_, chrono_add_in_range c.clock d, ?_⟩
  · unfold wait_for wait_until
    rw [wait_until_loop_frame (chrono_add c.clock d) pred ws (c.emit .lock)
      ((c.emit (.now c.clock)).emit .lock) rfl rfl]
    cases hl : wait_until_loop (chrono_add c.clock d) pred ws (c.emit .lock) with
    | none => rfl
    | some r =>
      obtain ⟨b, c1, rest⟩ := r
      obtain ⟨consumed, -, -, -, -, e5, -⟩ := wait_until_loop_some _ pred ws _ _ _ _ hl
      simp [emitted, e5, emit]
  · intro b c1 rest h
    obtain ⟨consumed, -, he⟩ := wait_for_emitted d pred c c1 b ws rest h
    rw [he]
    constructor
    · simp [wait_until_events_no_now]
    · intro u st hm
      have hm1 : Event.wait_until u st
          ∈ wait_until_events (chrono_add c.clock d) (consumed.map Wakeup.status) b := by
        simpa using hm
      exact wait_until_events_deadline _ _ _ _ _ hm1

/-- A run of C6: the clock reads 100, the duration is 50, one spurious
wakeup and then a timeout; both timed waits are given the deadline 150. -/
theorem wait_for_is_wait_until_witness :
    (emitted (⟨0, 100, []⟩ : LLCond Nat)
        ⟨0, 151, [.now 100, .lock, .pred false, .wait_until 150 .no_timeout, .pred false,
          .wait_until 150 .timeout, .pred false, .unlock]⟩).filter
        (fun e => e matches .now _) = [.now 100] ∧
    ∀ u st, Event.wait_until u st ∈ emitted (⟨0, 100, []⟩ : LLCond Nat)
        ⟨0, 151, [.now 100, .lock, .pred false, .wait_until 150 .no_timeout, .pred false,
          .wait_until 150 .timeout, .pred false, .unlock]⟩ → u = chrono_add 100 50 :=
  (wait_for_is_wait_until 50 (fun v : Nat => v == 1) ⟨0, 100, []⟩
    [⟨.no_timeout, 120, []⟩, ⟨.timeout, 151, []⟩]).2.2 false
    ⟨0, 151, [.now 100, .lock, .pred false, .wait_until 150 .no_timeout, .pred false,
      .wait_until 150 .timeout, .pred false, .unlock]⟩ [] rfl

/-- C7, as stated, fails on the code when the sum of the clock reading and
the duration wraps.  The clock reads 100 and `wait_for` is called with the
largest duration, `2 ^ 63 - 1` ticks, and a predicate that is always false:
the deadline handed to the timed wait is `-9223372036854775709`, long past,
the condition variable rightly reports timeout at once, and `wait_for`
returns false at clock 101, not `2 ^ 63 - 1` ticks after the call. -/
theorem wait_for_wraps_and_returns_early :
    wait_for 9223372036854775807 (fun _ : Nat => false) ⟨0, 100, []⟩ [⟨.timeout, 101, []⟩]
      = some (false,
          ⟨0, 101, [.now 100, .lock, .pred false,
            .wait_until (-9223372036854775709) .timeout, .pred false, .unlock]⟩, []) ∧
    timeouts_honest (⟨0, 100, []⟩ : LLCond Nat)
      ⟨0, 101, [.now 100, .lock, .pred false,
        .wait_until (-9223372036854775709) .timeout, .pred false, .unlock]⟩ ∧
    ¬ ((100 : Int) + 9223372036854775807 ≤ 101) := by
  refine ⟨rfl, ?_, by decide⟩
  intro u hu
  have hu1 : u = -9223372036854775709 := by simpa [emitted] using hu
  rw [hu1]
  decide

/-- C7, amended: if the predicate is false of every value the caller
observes, and the timed waits report no timeout for the wakeups `pre` and
timeout for the wakeup `w`, then `wait_for` returns, at that first report of
timeout, the result false, leaving the later wakeups unconsumed; the timed
wait that reported timeout had been given the sum of the clock reading and
the duration as the program computes it; and when that sum does not leave
the range of the 64-bit count, the condition variable reporting timeout only
once the deadline it was given is reached, `wait_for` returns no earlier
than the duration after the call. -/
theorem wait_for_times_out {α : Type} (d : Int) (pred : α → Bool) (c : LLCond α)
    (pre : List (Wakeup α)) (w : Wakeup α) (rest : List (Wakeup α))
    (hpre : ∀ x ∈ pre, x.status = cv_status.no_timeout)
    (hw : w.status = cv_status.timeout)
    (hfalse : ∀ k, k ≤ pre.length + 1 →
      pred (Wakeup.observe c.mData ((pre ++ [w]).take k)) = false) :
    ∃ c1, wait_for d pred c (pre ++ w :: rest) = some (false, c1, rest) ∧
      c1.clock = w.now ∧
      Event.wait_until (chrono_add c.clock d) cv_status.timeout ∈ emitted c c1 ∧
      (∀ u st, Event.wait_until u st ∈ emitted c c1 → u = chrono_add c.clock d) ∧
      (timeouts_honest c c1 → -9223372036854775808 ≤ c.clock + d →
        c.clock + d < 9223372036854775808 → c.clock + d ≤ c1.clock) := by
  have hlast : pred (Wakeup.observe c.mData (pre ++ [w])) = false := by
    have := hfalse (pre.length + 1) (Nat.le_refl _)
    rwa [List.take_of_length_le (by simp)] at this
  have hk : ∀ k, k ≤ pre.length →
      pred (Wakeup.observe (c.emit (.now c.clock)).mData (pre.take k)) = false := by
    intro k hk
    have := hfalse k (Nat.le_succ_of_le hk)
    rwa [List.take_append_of_le_length hk] at this
  have hrun := wait_until_at_timeout (chrono_add c.clock d) pred w rest hw pre
    (c.emit (.now c.clock)) hpre hk
  simp only [emit_mData] at hrun
  rw [hlast] at hrun
  have hfor : wait_for d pred c (pre ++ w :: rest)
      = some (false,
          ⟨Wakeup.observe c.mData (pre ++ [w]), w.now,
            (c.emit (.now c.clock)).trace ++
              (.lock :: wait_until_events (chrono_add c.clock d)
                ((pre ++ [w]).map Wakeup.status) false ++ [.unlock])⟩,
          rest) := hrun
  obtain ⟨consumed, hc, he⟩ := wait_for_emitted d pred c _ false _ rest hfor
  have hcons : consumed = pre ++ [w] := by
    have h1 : consumed ++ rest = (pre ++ [w]) ++ rest := by rw [← hc]; simp
    exact List.append_cancel_right h1
  have hin : Event.wait_until (chrono_add c.clock d) cv_status.timeout
      ∈ emitted c (⟨Wakeup.observe c.mData (pre ++ [w]), w.now,
            (c.emit (.now c.clock)).trace ++
              (.lock :: wait_until_events (chrono_add c.clock d)
                ((pre ++ [w]).map Wakeup.status) false ++ [.unlock])⟩ : LLCond α) := by
    rw [he, hcons, List.map_append, List.map_cons, List.map_nil, hw,
      wait_until_events_append]
    simp
  refine ⟨_, hfor, rfl, hin, ?_, ?_⟩
  · intro u st hm
    rw [he] at hm
    have hm1 : Event.wait_until u st
        ∈ wait_until_events (chrono_add c.clock d) (consumed.map Wakeup.status) false := by
      simpa using hm
    exact wait_until_events_deadline _ _ _ _ _ hm1
  · intro hcv hlo hhi
    have := hcv (chrono_add c.clock d) hin
    rw [chrono_add_in_range c.clock d hlo hhi] at this
    exact this

/-- A run of the amended C7, `wait_for(50, always false)` called at clock
100: one spurious wakeup at 120, the timeout for the deadline 150 reported
at 151. -/
theorem wait_for_times_out_witness :
    ∃ c1 : LLCond Nat,
      wait_for 50 (fun _ => false) ⟨0, 100, []⟩
          ([⟨.no_timeout, 120, []⟩] ++ ⟨.timeout, 151, []⟩ :: [⟨.no_timeout, 160, []⟩])
        = some (false, c1, [⟨.no_timeout, 160, []⟩]) ∧
      c1.clock = (151 : Int) ∧
      Event.wait_until (chrono_add 100 50) cv_status.timeout
        ∈ emitted (⟨0, 100, []⟩ : LLCond Nat) c1 ∧
      (∀ u st, Event.wait_until u st ∈ emitted (⟨0, 100, []⟩ : LLCond Nat) c1 →
        u = chrono_add 100 50) ∧
      (timeouts_honest (⟨0, 100, []⟩ : LLCond Nat) c1 →
        -9223372036854775808 ≤ (100 : Int) + 50 →
        (100 : Int) + 50 < 9223372036854775808 → (100 : Int) + 50 ≤ c1.clock) :=
  wait_for_times_out 50 (fun _ => false) ⟨0, 100, []⟩ [⟨.no_timeout, 120, []⟩]
    ⟨.timeout, 151, []⟩ [⟨.no_timeout, 160, []⟩]
    (by simp) rfl (fun _ _ => rfl)

/-- C8: `update_all` is `update_one` except for the notification: both leave
the stored value equal to the mutator applied to the old value and the clock
alone, both perform lock, modify, unlock and then one notification, which is
one `notify_all` for `update_all` and one `notify_one` for `update_one`. -/
theorem update_all_vs_update_one {α : Type} (modify : α → α) (c : LLCond α) :
    (update_all modify c).mData = modify c.mData ∧
    (update_all modify c).mData = (update_one modify c).mData ∧
    (update_all modify c).clock = (update_one modify c).clock ∧
    emitted c (update_all modify c) = [.lock, .modify, .unlock, .notify_all] ∧
    emitted c (update_one modify c) = [.lock, .modify, .unlock, .notify_one] ∧
    (emitted c (update_all modify c)).count .notify_all = 1 ∧
    (emitted c (update_all modify c)).count .notify_one = 0 := by
  have ha : emitted c (update_all modify c) = [.lock, .modify, .unlock, .notify_all] := by
    simp [emitted, update_all, locked_modify, emit]
  have ho : emitted c (update_one modify c) = [.lock, .modify, .unlock, .notify_one] := by
    simp [emitted, update_one, locked_modify, emit]
  refine ⟨rfl, rfl, rfl, ha, ho, ?_, ?_⟩ <;> rw [ha] <;> decide

/-- C9: `get`, `wait`, `wait_until` and `wait_for` never write the stored
value: after `get` it is the value before the call; after a wait that
returns it is the value before the call with the writes other contexts made
through updates while the caller was blocked applied in order, so the value
before the call if there was no such write; and an evaluation of the
predicate leaves the value as it is. -/
theorem waits_leave_value {α : Type} (pred : α → Bool) (c : LLCond α)
    (ws : List (Wakeup α)) (t d : Int) :
    (get c).1 = c.mData ∧ (get c).2.mData = c.mData ∧
    (c.emit (.pred (pred c.mData))).mData = c.mData ∧
    (∀ c1 rest, wait pred c ws = some (c1, rest) →
      ∃ consumed : List (Wakeup α), ws = consumed ++ rest ∧
        c1.mData = Wakeup.observe c.mData consumed ∧
        ((∀ w ∈ consumed, w.writes = []) → c1.mData = c.mData)) ∧
    (∀ b c1 rest, wait_until t pred c ws = some (b, c1, rest) →
      ∃ consumed : List (Wakeup α), ws = consumed ++ rest ∧
        c1.mData = Wakeup.observe c.mData consumed ∧
        ((∀ w ∈ consumed, w.writes = []) → c1.mData = c.mData)) ∧
    (∀ b c1 rest, wait_for d pred c ws = some (b, c1, rest) →
      ∃ consumed : List (Wakeup α), ws = consumed ++ rest ∧
        c1.mData = Wakeup.observe c.mData consumed ∧
        ((∀ w ∈ consumed, w.writes = []) → c1.mData = c.mData)) := by
  refine ⟨rfl, rfl, rfl, ?_, ?_, ?_⟩
  · intro c1 rest h
    obtain ⟨consumed, e1, e2, -⟩ := wait_some pred ws c c1 rest h
    exact ⟨consumed, e1, e2, fun hw => by rw [e2, Wakeup.observe_no_writes _ _ hw]⟩
  · intro b c1 rest h
    obtain ⟨consumed, e1, e2, -⟩ := wait_until_some t pred ws c c1 b rest h
    exact ⟨consumed, e1, e2, fun hw => by rw [e2, Wakeup.observe_no_writes _ _ hw]⟩
  · intro b c1 rest h
    unfold wait_for at h
    obtain ⟨consumed, e1, e2, -⟩ := wait_until_some _ pred ws _ c1 b rest h
    exact ⟨consumed, e1, by simpa using e2,
      fun hw => by rw [e2, Wakeup.observe_no_writes _ _ hw]; rfl⟩

/-- A run of C9: a `wait` for the value 3 over one spurious wakeup and one
wakeup after another context has stored 3. -/
theorem waits_leave_value_witness :
    ∃ consumed : List (Wakeup Nat),
      [⟨.no_timeout, 1, []⟩, ⟨.no_timeout, 2, [(2, fun _ => 3)]⟩] = consumed ++ [] ∧
      (3 : Nat) = Wakeup.observe 0 consumed ∧
      ((∀ w ∈ consumed, w.writes = []) → (3 : Nat) = 0) :=
  (waits_leave_value (fun v : Nat => v == 3) ⟨0, 0, []⟩
    [⟨.no_timeout, 1, []⟩, ⟨.no_timeout, 2, [(2, fun _ => 3)]⟩] 0 0).2.2.2.1
    ⟨3, 2, [.lock, .pred false, .wait, .pred false, .wait, .pred true, .unlock]⟩ [] rfl

/-- C10: whatever was stored before, after `set_one(v)` and after
`set_all(v)` the stored value, as `get` returns it, is `v`; `set_one(v)` is
`update_one` and `set_all(v)` is `update_all` with the mutator that assigns
`v`, so they notify one waiter, respectively all. -/
theorem set_stores_value {α : Type} (value : α) (c : LLCond α) :
    (get (LLScalarCond.set_one value c)).1 = value ∧
    (get (LLScalarCond.set_all value c)).1 = value ∧
    LLScalarCond.set_one value c = update_one (fun _ => value) c ∧
    LLScalarCond.set_all value c = update_all (fun _ => value) c ∧
    emitted c (LLScalarCond.set_one value c) = [.lock, .modify, .unlock, .notify_one] ∧
    emitted c (LLScalarCond.set_all value c) = [.lock, .modify, .unlock, .notify_all] := by
  refine ⟨rfl, rfl, rfl, rfl, ?_, ?_⟩
  · simp [emitted, LLScalarCond.set_one, update_one, locked_modify, emit]
  · simp [emitted, LLScalarCond.set_all, update_all, locked_modify, emit]

/-- C11, as stated, fails on the code for a value that `==` does not find
equal to itself: with DATA a `double` and the value NaN, after `set_all(NaN)`
NaN is stored and `wait_equal(NaN)` does not return, neither without a
wakeup nor over spurious wakeups. -/
theorem wait_equal_nan_blocks :
    (LLScalarCond.set_all DoubleData.nan ⟨DoubleData.num 0, 0, []⟩).mData
      = DoubleData.nan ∧
    (LLScalarCond.wait_equal DoubleData.nan
      (LLScalarCond.set_all DoubleData.nan ⟨DoubleData.num 0, 0, []⟩) []).isSome = false ∧
    (LLScalarCond.wait_equal DoubleData.nan
      (LLScalarCond.set_all DoubleData.nan ⟨DoubleData.num 0, 0, []⟩)
      [⟨.no_timeout, 1, []⟩, ⟨.no_timeout, 2, []⟩]).isSome = false := by
  decide

/-- C11, amended: `wait_equal(v)`, `wait_until_equal(t, v)` and
`wait_for_equal(d, v)` are `wait`, `wait_until` and `wait_for` with the
predicate `x == v`; `wait_equal(v)` returns only with a stored value equal
to `v`, and, for a value `v` that `==` finds equal to itself, called after
`set_all(v)` it returns at once: lock, one evaluation, unlock, no wakeup
consumed. -/
theorem wait_equal_is_wait {α : Type} [BEq α] (value : α) (t d : Int) (c : LLCond α)
    (ws : List (Wakeup α)) :
    LLScalarCond.wait_equal value c ws = wait (fun x => x == value) c ws ∧
    LLScalarCond.wait_until_equal t value c ws = wait_until t (fun x => x == value) c ws ∧
    LLScalarCond.wait_for_equal d value c ws = wait_for d (fun x => x == value) c ws ∧
    (∀ c1 rest, LLScalarCond.wait_equal value c ws = some (c1, rest) →
      (c1.mData == value) = true) ∧
    ((value == value) = true →
      LLScalarCond.wait_equal value (LLScalarCond.set_all value c) ws
        = some (⟨value, c.clock,
            (LLScalarCond.set_all value c).trace ++ [.lock, .pred true, .unlock]⟩, ws)) := by
  refine ⟨rfl, rfl, rfl, ?_, ?_⟩
  · intro c1 rest h
    obtain ⟨consumed, -, -, e3, -⟩ := wait_some _ ws c c1 rest h
    exact e3
  · intro hv
    exact wait_of_true (fun x => x == value) (LLScalarCond.set_all value c) ws hv

/-- A run of the amended C11: the value is 0, `set_all(5)`, then
`wait_equal(5)`. -/
theorem wait_equal_is_wait_witness :
    LLScalarCond.wait_equal (5 : Nat) (LLScalarCond.set_all 5 ⟨0, 0, []⟩) []
      = some (⟨5, 0, [.lock, .modify, .unlock, .notify_all, .lock, .pred true, .unlock]⟩, []) :=
  (wait_equal_is_wait (5 : Nat) 0 0 ⟨0, 0, []⟩ []).2.2.2.2 rfl

/-- C12: `wait_unequal(v)`, `wait_until_unequal(t, v)` and
`wait_for_unequal(d, v)` are `wait`, `wait_until` and `wait_for` with the
predicate `x != v`; `wait_unequal(v)` returns only with a stored value that
differs from `v`, and called after `set_all(w)` with `w != v` it returns at
once: lock, one evaluation, unlock, no wakeup consumed. -/
theorem wait_unequal_is_wait {α : Type} [BEq α] (value w : α) (t d : Int) (c : LLCond α)
    (ws : List (Wakeup α)) :
    LLScalarCond.wait_unequal value c ws = wait (fun x => x != value) c ws ∧
    LLScalarCond.wait_until_unequal t value c ws
      = wait_until t (fun x => x != value) c ws ∧
    LLScalarCond.wait_for_unequal d value c ws = wait_for d (fun x => x != value) c ws ∧
    (∀ c1 rest, LLScalarCond.wait_unequal value c ws = some (c1, rest) →
      (c1.mData != value) = true) ∧
    ((w != value) = true →
      LLScalarCond.wait_unequal value (LLScalarCond.set_all w c) ws
        = some (⟨w, c.clock,
            (LLScalarCond.set_all w c).trace ++ [.lock, .pred true, .unlock]⟩, ws)) := by
  refine ⟨rfl, rfl, rfl, ?_, ?_⟩
  · intro c1 rest h
    obtain ⟨consumed, -, -, e3, -⟩ := wait_some _ ws c c1 rest h
    exact e3
  · intro hv
    exact wait_of_true (fun x => x != value) (LLScalarCond.set_all w c) ws hv

/-- A run of C12: the value is 0, `set_all(5)`, then `wait_unequal(0)`. -/
theorem wait_unequal_is_wait_witness :
    LLScalarCond.wait_unequal (0 : Nat) (LLScalarCond.set_all 5 ⟨0, 0, []⟩) []
      = some (⟨5, 0, [.lock, .modify, .unlock, .notify_all, .lock, .pred true, .unlock]⟩, []) :=
  (wait_unequal_is_wait (0 : Nat) 5 0 0 ⟨0, 0, []⟩ []).2.2.2.2 rfl

/-- C13, as stated, fails on the code: on a latch that stores true (a fresh
latch after `set_one()`), `set_one(false)` and `set_all(false)` store false. -/
theorem latch_reset_by_set_false :
    (LLOneShotCond.set_one_nullary (LLOneShotCond.mk_init 0)).mData = true ∧
    (LLOneShotCond.set_one false
      (LLOneShotCond.set_one_nullary (LLOneShotCond.mk_init 0))).mData = false ∧
    (LLOneShotCond.set_all false
      (LLOneShotCond.set_one_nullary (LLOneShotCond.mk_init 0))).mData = false := by
  decide

/-- C13, amended: on a latch that stores true, every call of `set_one` or
`set_all` with no argument or with true, and every call of `wait`,
`wait_until` or `wait_for`, returns and leaves true stored; `set_one(value)`
and `set_all(value)` store the value they are passed. -/
theorem latch_keeps_true (op : LatchOp) (c : LLCond Bool) (ws : List (Wakeup Bool))
    (hc : c.mData = true) (h1 : op ≠ LatchOp.set_one false)
    (h2 : op ≠ LatchOp.set_all false) :
    (∃ c1, LLOneShotCond.run_op op c ws = some (c1, ws) ∧ c1.mData = true) ∧
    ∀ value, (LLOneShotCond.set_one value c).mData = value ∧
      (LLOneShotCond.set_all value c).mData = value :=
  ⟨LLOneShotCond.run_op_keeps_true op c ws hc h1 h2, fun _ => ⟨rfl, rfl⟩⟩

/-- A run of the amended C13: `wait_for(50)` on a latch that stores true. -/
theorem latch_keeps_true_witness :
    (∃ c1, LLOneShotCond.run_op (.wait_for 50) ⟨true, 0, []⟩ [] = some (c1, []) ∧
      c1.mData = true) ∧
    ∀ value, (LLOneShotCond.set_one value ⟨true, 0, []⟩).mData = value ∧
      (LLOneShotCond.set_all value ⟨true, 0, []⟩).mData = value :=
  latch_keeps_true (.wait_for 50) ⟨true, 0, []⟩ [] rfl (by decide) (by decide)

/-- C14: on a latch in any state, `set_one()` and `set_all()` leave true
stored, issuing one `notify_one`, respectively one `notify_all`; calling set
twice, in any mix, leaves true, as calling it once does. -/
theorem set_nullary_idempotent (c : LLCond Bool) :
    (LLOneShotCond.set_one_nullary c).mData = true ∧
    (LLOneShotCond.set_all_nullary c).mData = true ∧
    emitted c (LLOneShotCond.set_one_nullary c) = [.lock, .modify, .unlock, .notify_one] ∧
    emitted c (LLOneShotCond.set_all_nullary c) = [.lock, .modify, .unlock, .notify_all] ∧
    (LLOneShotCond.set_one_nullary (LLOneShotCond.set_one_nullary c)).mData
      = (LLOneShotCond.set_one_nullary c).mData ∧
    (LLOneShotCond.set_all_nullary (LLOneShotCond.set_all_nullary c)).mData
      = (LLOneShotCond.set_all_nullary c).mData ∧
    (LLOneShotCond.set_one_nullary (LLOneShotCond.set_all_nullary c)).mData = true ∧
    (LLOneShotCond.set_all_nullary (LLOneShotCond.set_one_nullary c)).mData = true := by
  refine ⟨rfl, rfl, ?_, ?_, rfl, rfl, rfl, rfl⟩
  · simp [emitted, LLOneShotCond.set_one_nullary, LLOneShotCond.set_one,
      LLScalarCond.set_one, update_one, locked_modify, emit]
  · simp [emitted, LLOneShotCond.set_all_nullary, LLOneShotCond.set_all,
      LLScalarCond.set_all, update_all, locked_modify, emit]

/-- C15: a freshly constructed latch stores false and its `wait()` blocks:
without a wakeup it has not returned, over wakeups after each of which false
is still stored it has not returned, and when it returns it has waited on
the condition variable at least once, false was stored at the call and after
every wakeup before the last one it consumed, and true is stored. -/
theorem fresh_latch_blocks (clock : Int) (ws : List (Wakeup Bool)) :
    (LLOneShotCond.mk_init clock).mData = false ∧
    LLOneShotCond.wait (LLOneShotCond.mk_init clock) [] = none ∧
    ((∀ k, k ≤ ws.length → Wakeup.observe false (ws.take k) = false) →
      LLOneShotCond.wait (LLOneShotCond.mk_init clock) ws = none) ∧
    (∀ c1 rest, LLOneShotCond.wait (LLOneShotCond.mk_init clock) ws = some (c1, rest) →
      ∃ consumed : List (Wakeup Bool),
        ws = consumed ++ rest ∧ consumed ≠ [] ∧
        Event.wait ∈ emitted (LLOneShotCond.mk_init clock) c1 ∧
        (∀ k, k < consumed.length → Wakeup.observe false (consumed.take k) = false) ∧
        c1.mData = true) := by
  refine ⟨rfl, rfl, ?_, ?_⟩
  · intro h
    apply wait_none_of_false
    intro k hk
    show (Wakeup.observe false (ws.take k) == true) = false
    rw [h k hk]
    rfl
  · intro c1 rest h
    obtain ⟨consumed, e1, e2, e3, -, e5, e6⟩ :=
      wait_some (fun data : Bool => data == true) ws _ c1 rest h
    have htrue : c1.mData = true := by simpa using e3
    have hne : consumed ≠ [] := by
      intro hnil
      rw [hnil] at e2
      rw [htrue] at e2
      cases e2
    refine ⟨consumed, e1, hne, ?_, ?_, htrue⟩
    · rw [emitted_of_trace _ c1 _ e5]
      cases consumed with
      | nil => exact absurd rfl hne
      | cons x xs => simp [wait_events]
    · intro k hk
      have := e6 k hk
      simpa using this

/-- A run of C15: a fresh latch, one spurious wakeup, then a wakeup after
another context has called `set_all()`. -/
theorem fresh_latch_blocks_witness :
    ∃ consumed : List (Wakeup Bool),
      [⟨.no_timeout, 1, []⟩, ⟨.no_timeout, 2, [(2, fun _ => true)]⟩] = consumed ++ [] ∧
      consumed ≠ [] ∧
      Event.wait ∈ emitted (LLOneShotCond.mk_init 0)
        ⟨true, 2, [.lock, .pred false, .wait, .pred false, .wait, .pred true, .unlock]⟩ ∧
      (∀ k, k < consumed.length → Wakeup.observe false (consumed.take k) = false) ∧
      (⟨true, 2, [.lock, .pred false, .wait, .pred false, .wait, .pred true, .unlock]⟩
        : LLCond Bool).mData = true :=
  (fresh_latch_blocks 0
    [⟨.no_timeout, 1, []⟩, ⟨.no_timeout, 2, [(2, fun _ => true)]⟩]).2.2.2
    ⟨true, 2, [.lock, .pred false, .wait, .pred false, .wait, .pred true, .unlock]⟩ [] rfl

/-- C16, as stated, fails on the code: on a fresh latch after `set_one()` a
`wait()` returns at once, but after the further latch operation
`set_one(false)` (or `set_all(false)`) a `wait()` blocks again: it has not
returned without a wakeup, nor over spurious wakeups. -/
theorem latch_wait_blocks_after_set_false :
    (LLOneShotCond.wait (LLOneShotCond.set_one_nullary (LLOneShotCond.mk_init 0)) []).isSome
      = true ∧
    ((LLOneShotCond.run_ops [.set_one false]
        (LLOneShotCond.set_one_nullary (LLOneShotCond.mk_init 0)) []).bind
      (fun r => LLOneShotCond.wait r.1 [])).isSome = false ∧
    ((LLOneShotCond.run_ops [.wait, .set_all false]
        (LLOneShotCond.set_all_nullary (LLOneShotCond.mk_init 0)) []).bind
      (fun r => LLOneShotCond.wait r.1 [⟨.no_timeout, 1, []⟩, ⟨.no_timeout, 2, []⟩])).isSome
      = false ∧
    (LLOneShotCond.run_ops [.set_one false]
        (LLOneShotCond.set_one_nullary (LLOneShotCond.mk_init 0)) []).isSome = true := by
  decide

/-- C16, amended: after `set_one()` or `set_all()` every later `wait()`
returns at once (lock, one evaluation, unlock, no wakeup consumed), and
stays so after any further sequence of latch operations in which `set_one`
and `set_all` are called with no argument or with true: the sequence runs to
its end, true is still stored and a `wait()` returns at once. -/
theorem latch_stays_set (c : LLCond Bool) (ops : List LatchOp)
    (ws ws1 : List (Wakeup Bool))
    (hops : ∀ op ∈ ops, op ≠ LatchOp.set_one false ∧ op ≠ LatchOp.set_all false) :
    (∃ c1, LLOneShotCond.run_ops ops (LLOneShotCond.set_one_nullary c) ws = some (c1, ws) ∧
      c1.mData = true ∧
      LLOneShotCond.wait c1 ws1
        = some (⟨true, c1.clock, c1.trace ++ [.lock, .pred true, .unlock]⟩, ws1)) ∧
    (∃ c1, LLOneShotCond.run_ops ops (LLOneShotCond.set_all_nullary c) ws = some (c1, ws) ∧
      c1.mData = true ∧
      LLOneShotCond.wait c1 ws1
        = some (⟨true, c1.clock, c1.trace ++ [.lock, .pred true, .unlock]⟩, ws1)) := by
  have key : ∀ c0 : LLCond Bool, c0.mData = true →
      ∃ c1, LLOneShotCond.run_ops ops c0 ws = some (c1, ws) ∧ c1.mData = true ∧
        LLOneShotCond.wait c1 ws1
          = some (⟨true, c1.clock, c1.trace ++ [.lock, .pred true, .unlock]⟩, ws1) := by
    intro c0 h0
    obtain ⟨c1, e1, e2⟩ := LLOneShotCond.run_ops_keeps_true ops c0 ws h0 hops
    refine ⟨c1, e1, e2, ?_⟩
    have hw := wait_of_true (fun data : Bool => data == true) c1 ws1 (by simp [e2])
    rw [e2] at hw
    exact hw
  exact ⟨key _ rfl, key _ rfl⟩

/-- A run of the amended C16: `set_all()`, then `wait()`, `set_one()`,
`wait_until(5)`, `wait_for(50)`, `set_all(true)`, then a `wait()`. -/
theorem latch_stays_set_witness :
    (∃ c1, LLOneShotCond.run_ops
        [.wait, .set_one true, .wait_until 5, .wait_for 50, .set_all true]
        (LLOneShotCond.set_one_nullary (LLOneShotCond.mk_init 0)) [] = some (c1, []) ∧
      c1.mData = true ∧
      LLOneShotCond.wait c1 []
        = some (⟨true, c1.clock, c1.trace ++ [.lock, .pred true, .unlock]⟩, [])) ∧
    (∃ c1, LLOneShotCond.run_ops
        [.wait, .set_one true, .wait_until 5, .wait_for 50, .set_all true]
        (LLOneShotCond.set_all_nullary (LLOneShotCond.mk_init 0)) [] = some (c1, []) ∧
      c1.mData = true ∧
      LLOneShotCond.wait c1 []
        = some (⟨true, c1.clock, c1.trace ++ [.lock, .pred true, .unlock]⟩, [])) :=
  latch_stays_set (LLOneShotCond.mk_init 0)
    [.wait, .set_one true, .wait_until 5, .wait_for 50, .set_all true] [] []
    (by decide)

/-- C17: `wait()`, `wait_until(t)` and `wait_for(d)` of the latch are
`wait_equal(true)`, `wait_until_equal(t, true)` and `wait_for_equal(d, true)`.
They block until true is stored: with true stored at the call all three
return at once; `wait()` has not returned while false is stored after every
wakeup, returns at the first wakeup after which true is stored, and returns
only with true stored; the bounded forms return true at the first wakeup
after which true is stored, return at the first report of timeout the value
then stored, and whenever they return they return the stored value, false
exactly when their last timed wait reported timeout and false is still
stored. -/
theorem latch_wait_is_wait_equal (t d : Int) (c : LLCond Bool) (ws : List (Wakeup Bool)) :
    LLOneShotCond.wait c ws = LLScalarCond.wait_equal true c ws ∧
    LLOneShotCond.wait_until t c ws = LLScalarCond.wait_until_equal t true c ws ∧
    LLOneShotCond.wait_for d c ws = LLScalarCond.wait_for_equal d true c ws ∧
    ((∀ k, k ≤ ws.length → Wakeup.observe c.mData (ws.take k) = false) →
      LLOneShotCond.wait c ws = none) ∧
    (∀ c1 rest, LLOneShotCond.wait c ws = some (c1, rest) → c1.mData = true) ∧
    (∀ b c1 rest, LLOneShotCond.wait_until t c ws = some (b, c1, rest) →
      b = c1.mData ∧
      (b = false ↔
        (∃ pre w, ws = pre ++ w :: rest ∧ w.status = cv_status.timeout) ∧
          c1.mData = false)) ∧
    (∀ b c1 rest, LLOneShotCond.wait_for d c ws = some (b, c1, rest) →
      b = c1.mData ∧
      (b = false ↔
        (∃ pre w, ws = pre ++ w :: rest ∧ w.status = cv_status.timeout) ∧
          c1.mData = false)) ∧
    (c.mData = true →
      LLOneShotCond.wait c ws
        = some (⟨true, c.clock, c.trace ++ [.lock, .pred true, .unlock]⟩, ws) ∧
      LLOneShotCond.wait_until t c ws
        = some (true, ⟨true, c.clock, c.trace ++ [.lock, .pred true, .unlock]⟩, ws) ∧
      LLOneShotCond.wait_for d c ws
        = some (true,
            ⟨true, c.clock, c.trace ++ [.now c.clock, .lock, .pred true, .unlock]⟩, ws)) ∧
    (∀ pre rest, ws = pre ++ rest →
      (∀ k, k < pre.length → Wakeup.observe c.mData (pre.take k) = false) →
      Wakeup.observe c.mData pre = true →
      (∃ c1, LLOneShotCond.wait c ws = some (c1, rest) ∧ c1.mData = true) ∧
      ((∀ x ∈ pre, x.status = cv_status.no_timeout) →
        (∃ c1, LLOneShotCond.wait_until t c ws = some (true, c1, rest) ∧
          c1.mData = true) ∧
        (∃ c1, LLOneShotCond.wait_for d c ws = some (true, c1, rest) ∧
          c1.mData = true))) ∧
    (∀ pre w rest, ws = pre ++ w :: rest →
      (∀ x ∈ pre, x.status = cv_status.no_timeout) →
      w.status = cv_status.timeout →
      (∀ k, k ≤ pre.length → Wakeup.observe c.mData (pre.take k) = false) →
      (∃ c1, LLOneShotCond.wait_until t c ws
          = some (Wakeup.observe c.mData (pre ++ [w]), c1, rest) ∧
        c1.mData = Wakeup.observe c.mData (pre ++ [w]) ∧ c1.clock = w.now) ∧
      (∃ c1, LLOneShotCond.wait_for d c ws
          = some (Wakeup.observe c.mData (pre ++ [w]), c1, rest) ∧
        c1.mData = Wakeup.observe c.mData (pre ++ [w]) ∧ c1.clock = w.now)) := by
  have key : ∀ (u : Int) (c0 : LLCond Bool) (b : Bool) (c1 : LLCond Bool)
      (rest : List (Wakeup Bool)),
      LLCond.wait_until u (fun data : Bool => data == true) c0 ws = some (b, c1, rest) →
      b = c1.mData ∧
      (b = false ↔
        (∃ pre w, ws = pre ++ w :: rest ∧ w.status = cv_status.timeout) ∧
          c1.mData = false) := by
    intro u c0 b c1 rest h
    obtain ⟨consumed, -, -, e3, -⟩ := wait_until_some u _ ws c0 c1 b rest h
    have hb : b = c1.mData := by
      rw [← e3]
      simp
    refine ⟨hb, ?_, ?_⟩
    · intro hf
      subst hf
      exact ⟨wait_until_false_split u _ ws c0 c1 rest h, hb.symm⟩
    · rintro ⟨-, hv⟩
      rw [hb, hv]
  have hfalse : ∀ x : Bool, x = false → (fun data : Bool => data == true) x = false := by
    intro x hx
    rw [hx]
    rfl
  have htrue : ∀ x : Bool, x = true → (fun data : Bool => data == true) x = true := by
    intro x hx
    rw [hx]
    rfl
  have hid : ∀ x : Bool, (fun data : Bool => data == true) x = x := by
    intro x
    cases x <;> rfl
  refine ⟨rfl, rfl, rfl, ?_, ?_, ?_, ?_, ?_, ?_, ?_⟩
  · intro h
    apply wait_none_of_false
    intro k hk
    exact hfalse _ (h k hk)
  · intro c1 rest h
    obtain ⟨consumed, -, -, e3, -⟩ :=
      wait_some (fun data : Bool => data == true) ws c c1 rest h
    simpa using e3
  · intro b c1 rest h
    exact key t c b c1 rest h
  · intro b c1 rest h
    exact key _ _ b c1 rest h
  · intro hc
    have hp := htrue c.mData hc
    have h1 := wait_of_true (fun data : Bool => data == true) c ws hp
    have h2 := wait_until_of_true t (fun data : Bool => data == true) c ws hp
    have h3 := wait_for_of_true d (fun data : Bool => data == true) c ws hp
    rw [hc] at h1 h2 h3
    exact ⟨h1, h2, h3⟩
  · intro pre rest hws hk hp
    subst hws
    refine ⟨⟨_, wait_at_first (fun data : Bool => data == true) rest pre c
      (fun k hk1 => hfalse _ (hk k hk1)) (htrue _ hp), hp⟩, ?_⟩
    intro hst
    refine ⟨⟨_, wait_until_at_first t (fun data : Bool => data == true) rest pre c hst
      (fun k hk1 => hfalse _ (hk k hk1)) (htrue _ hp), hp⟩, ?_⟩
    exact ⟨_, wait_until_at_first (chrono_add c.clock d) (fun data : Bool => data == true)
      rest pre (c.emit (.now c.clock)) hst
      (fun k hk1 => hfalse _ (hk k hk1)) (htrue _ hp), hp⟩
  · intro pre w rest hws hst hw hk
    subst hws
    have h1 := wait_until_at_timeout t (fun data : Bool => data == true) w rest hw pre c
      hst (fun k hk1 => hfalse _ (hk k hk1))
    have h2 := wait_until_at_timeout (chrono_add c.clock d)
      (fun data : Bool => data == true) w rest hw pre (c.emit (.now c.clock))
      hst (fun k hk1 => hfalse _ (hk k hk1))
    rw [hid] at h1 h2
    exact ⟨⟨_, h1, rfl, rfl⟩, ⟨_, h2, rfl, rfl⟩⟩

/-- Two runs of C17 on a fresh latch: `wait()` over a spurious wakeup and a
wakeup after another context has called `set_all()`, which returns there;
and `wait_until(5)` over a spurious wakeup and a timeout with false still
stored, which returns false. -/
theorem latch_wait_is_wait_equal_witness :
    (∃ c1, LLOneShotCond.wait (LLOneShotCond.mk_init 0)
        [⟨.no_timeout, 1, []⟩, ⟨.no_timeout, 2, [(2, fun _ => true)]⟩,
          ⟨.no_timeout, 3, []⟩] = some (c1, [⟨.no_timeout, 3, []⟩]) ∧
      c1.mData = true) ∧
    (false = (⟨false, 6, [.lock, .pred false, .wait_until 5 .no_timeout, .pred false,
        .wait_until 5 .timeout, .pred false, .unlock]⟩ : LLCond Bool).mData ∧
    (false = false ↔
      (∃ pre w, [(⟨.no_timeout, 2, []⟩ : Wakeup Bool), ⟨.timeout, 6, []⟩] = pre ++ w :: [] ∧
        w.status = cv_status.timeout) ∧
      (⟨false, 6, [.lock, .pred false, .wait_until 5 .no_timeout, .pred false,
        .wait_until 5 .timeout, .pred false, .unlock]⟩ : LLCond Bool).mData = false)) :=
  ⟨((latch_wait_is_wait_equal 5 0 (LLOneShotCond.mk_init 0)
      [⟨.no_timeout, 1, []⟩, ⟨.no_timeout, 2, [(2, fun _ => true)]⟩,
        ⟨.no_timeout, 3, []⟩]).2.2.2.2.2.2.2.2.1
      [⟨.no_timeout, 1, []⟩, ⟨.no_timeout, 2, [(2, fun _ => true)]⟩]
      [⟨.no_timeout, 3, []⟩] rfl
      (fun k hk => by
        have hk2 : k < 2 := hk
        interval_cases k <;> rfl)
      rfl).1,
    (latch_wait_is_wait_equal 5 0 (LLOneShotCond.mk_init 0)
      [⟨.no_timeout, 2, []⟩, ⟨.timeout, 6, []⟩]).2.2.2.2.2.1 false
      ⟨false, 6, [.lock, .pred false, .wait_until 5 .no_timeout, .pred false,
        .wait_until 5 .timeout, .pred false, .unlock]⟩ [] rfl⟩

/-- C18: `get()` on an `LLCond` freshly constructed with `init` returns
`init`, on one constructed with no argument it returns the default value of
DATA; on any state `get()` returns the stored value and all it does is the
one read: it does not lock the mutex. -/
theorem get_after_construct {α : Type} [Inhabited α] (init : α) (clock : Int)
    (c : LLCond α) :
    (get (mk_init init clock)).1 = init ∧
    (get (mk_default clock : LLCond α)).1 = default ∧
    (get c).1 = c.mData ∧
    emitted c (get c).2 = [.read] ∧
    Event.lock ∉ emitted c (get c).2 := by
  have h : emitted c (get c).2 = [.read] := by simp [emitted, LLCond.get, emit]
  refine ⟨rfl, rfl, rfl, h, ?_⟩
  rw [h]
  decide

/-- C19: if the predicate holds of the value the mutator produces, then
after `update_all(m)` a `wait(p)` returns at once (lock, one evaluation,
unlock, no wakeup consumed) and `get()` returns `m(v)`; and a caller blocked
in `wait(p)` while another context runs `update_all(m)` returns at the
wakeup that follows, with `m(v)` stored for `get()`. -/
theorem update_all_releases_wait {α : Type} (modify : α → α) (pred : α → Bool)
    (c : LLCond α) (ws : List (Wakeup α)) (hp : pred (modify c.mData) = true) :
    wait pred (update_all modify c) ws
      = some (⟨modify c.mData, c.clock,
          (update_all modify c).trace ++ [.lock, .pred true, .unlock]⟩, ws) ∧
    (get (update_all modify c)).1 = modify c.mData ∧
    (pred c.mData = false → ∀ (st : cv_status) (now u : Int),
      wait pred c (⟨st, now, [(u, modify)]⟩ :: ws)
        = some (⟨modify c.mData, now,
            c.trace ++ [.lock, .pred false, .wait, .pred true, .unlock]⟩, ws) ∧
      ∀ c1 rest, wait pred c (⟨st, now, [(u, modify)]⟩ :: ws) = some (c1, rest) →
        (get c1).1 = modify c.mData) := by
  refine ⟨?_, rfl, ?_⟩
  · exact wait_of_true pred (update_all modify c) ws hp
  · intro h0 st now u
    have hw := wait_after_wakeup pred c ⟨st, now, [(u, modify)]⟩ ws h0 hp
    refine ⟨hw, ?_⟩
    intro c1 rest h
    rw [hw] at h
    simp at h
    rw [← h.1]
    rfl

/-- The scenario of C19: the value is 0, the mutator stores 3, the predicate
asks for 3; the `wait` returns and `get()` returns 3. -/
theorem update_all_releases_wait_witness :
    wait (fun v : Nat => v == 3) (update_all (fun _ => 3) ⟨0, 0, []⟩) []
      = some (⟨3, 0, [.lock, .modify, .unlock, .notify_all, .lock, .pred true, .unlock]⟩, []) ∧
    (get (update_all (fun _ => (3 : Nat)) ⟨0, 0, []⟩)).1 = 3 ∧
    ((fun v : Nat => v == 3) 0 = false → ∀ (st : cv_status) (now u : Int),
      wait (fun v : Nat => v == 3) ⟨0, 0, []⟩ (⟨st, now, [(u, fun _ => 3)]⟩ :: [])
        = some (⟨3, now, [.lock, .pred false, .wait, .pred true, .unlock]⟩, []) ∧
      ∀ c1 rest,
        wait (fun v : Nat => v == 3) ⟨0, 0, []⟩ (⟨st, now, [(u, fun _ => 3)]⟩ :: [])
          = some (c1, rest) →
        (get c1).1 = 3) :=
  update_all_releases_wait (fun _ => 3) (fun v : Nat => v == 3) ⟨0, 0, []⟩ [] rfl

/-- C22, as stated, fails on the code: `get()` reads the stored value
without owning the mutex; all it does is the read. -/
theorem get_reads_unlocked :
    emitted (⟨0, 0, []⟩ : LLCond Nat) (get (⟨0, 0, []⟩ : LLCond Nat)).2 = [.read] ∧
    guarded false (emitted (⟨0, 0, []⟩ : LLCond Nat) (get (⟨0, 0, []⟩ : LLCond Nat)).2)
      = false := by
  decide

/-- C22, amended: in every execution of `update_one`, `update_all`, `wait`,
`wait_until` and `wait_for`, each call of the mutator, each evaluation of
the predicate and each wait on the condition variable occurs between an
acquisition of the mutex and the matching release; `get()` reads the stored
value without acquiring the mutex. -/
theorem accesses_under_lock {α : Type} (modify : α → α) (pred : α → Bool)
    (c : LLCond α) (ws : List (Wakeup α)) (t d : Int) :
    guarded false (emitted c (update_one modify c)) = true ∧
    guarded false (emitted c (update_all modify c)) = true ∧
    (∀ c1 rest, wait pred c ws = some (c1, rest) →
      guarded false (emitted c c1) = true) ∧
    (∀ b c1 rest, wait_until t pred c ws = some (b, c1, rest) →
      guarded false (emitted c c1) = true) ∧
    (∀ b c1 rest, wait_for d pred c ws = some (b, c1, rest) →
      guarded false (emitted c c1) = true) ∧
    emitted c (get c).2 = [.read] := by
  refine ⟨?_, ?_, ?_, ?_, ?_, ?_⟩
  · have h : emitted c (update_one modify c) = [.lock, .modify, .unlock, .notify_one] := by
      simp [emitted, update_one, locked_modify, emit]
    rw [h]
    rfl
  · have h : emitted c (update_all modify c) = [.lock, .modify, .unlock, .notify_all] := by
      simp [emitted, update_all, locked_modify, emit]
    rw [h]
    rfl
  · intro c1 rest h
    obtain ⟨consumed, -, -, -, -, e5, -⟩ := wait_some pred ws c c1 rest h
    rw [emitted_of_trace c c1 _ e5]
    exact guarded_wait_events consumed.length
  · intro b c1 rest h
    obtain ⟨consumed, -, -, -, -, e5, -⟩ := wait_until_some t pred ws c c1 b rest h
    rw [emitted_of_trace c c1 _ e5]
    exact guarded_wait_until_events t b _
  · intro b c1 rest h
    unfold wait_for at h
    obtain ⟨consumed, -, -, -, -, e5, -⟩ := wait_until_some _ pred ws _ c1 b rest h
    have he : emitted c c1
        = .now c.clock :: .lock ::
            wait_until_events (chrono_add c.clock d) (consumed.map Wakeup.status) b
              ++ [.unlock] := by
      apply emitted_of_trace
      simp [e5]
    rw [he]
    exact guarded_wait_until_events (chrono_add c.clock d) b _
  · simp [emitted, LLCond.get, emit]

/-- A run of the amended C22: a `wait` for the value 3 over one spurious
wakeup and one wakeup after another context has stored 3. -/
theorem accesses_under_lock_witness :
    guarded false (emitted (⟨0, 0, []⟩ : LLCond Nat)
      ⟨3, 2, [.lock, .pred false, .wait, .pred false, .wait, .pred true, .unlock]⟩) = true :=
  (accesses_under_lock (fun _ => 0) (fun v : Nat => v == 3) ⟨0, 0, []⟩
    [⟨.no_timeout, 1, []⟩, ⟨.no_timeout, 2, [(2, fun _ => 3)]⟩] 0 0).2.2.1
    ⟨3, 2, [.lock, .pred false, .wait, .pred false, .wait, .pred true, .unlock]⟩ [] rfl

/-- C23: `update_one` and `update_all` perform, in this order, the
acquisition of the lock, the call of the mutator, the release of the lock
and the notification; the condition variable is notified only while the
caller does not own the mutex, after the release. -/
theorem update_notifies_after_unlock {α : Type} (modify : α → α) (c : LLCond α) :
    emitted c (update_one modify c) = [.lock, .modify, .unlock, .notify_one] ∧
    emitted c (update_all modify c) = [.lock, .modify, .unlock, .notify_all] ∧
    notify_unlocked false (emitted c (update_one modify c)) = true ∧
    notify_unlocked false (emitted c (update_all modify c)) = true ∧
    (emitted c (update_one modify c)).indexOf .unlock
      < (emitted c (update_one modify c)).indexOf .notify_one ∧
    (emitted c (update_all modify c)).indexOf .unlock
      < (emitted c (update_all modify c)).indexOf .notify_all := by
  have ho : emitted c (update_one modify c) = [.lock, .modify, .unlock, .notify_one] := by
    simp [emitted, update_one, locked_modify, emit]
  have ha : emitted c (update_all modify c) = [.lock, .modify, .unlock, .notify_all] := by
    simp [emitted, update_all, locked_modify, emit]
  rw [ho, ha]
  refine ⟨rfl, rfl, rfl, rfl, ?_, ?_⟩ <;> decide

/-- C24: `wait` absorbs spurious wakeups.  When it returns it has evaluated
the predicate at the call and once after every wakeup it consumed, the
predicate was false at the call and after every consumed wakeup but the
last, and true after the last; and it does return at the first point, the
call or a wakeup, at which the predicate holds, consuming no later wakeup. -/
theorem wait_absorbs_spurious {α : Type} (pred : α → Bool) (c : LLCond α)
    (ws : List (Wakeup α)) :
    (∀ c1 rest, wait pred c ws = some (c1, rest) →
      ∃ consumed : List (Wakeup α),
        ws = consumed ++ rest ∧
        (∀ k, k < consumed.length →
          pred (Wakeup.observe c.mData (consumed.take k)) = false) ∧
        pred (Wakeup.observe c.mData consumed) = true ∧
        c1.mData = Wakeup.observe c.mData consumed ∧
        ((emitted c c1).filter (fun e => e matches .pred _)).length = consumed.length + 1 ∧
        (emitted c c1).count .wait = consumed.length) ∧
    (∀ pre rest, ws = pre ++ rest →
      (∀ k, k < pre.length → pred (Wakeup.observe c.mData (pre.take k)) = false) →
      pred (Wakeup.observe c.mData pre) = true →
      ∃ c1, wait pred c ws = some (c1, rest) ∧
        c1.mData = Wakeup.observe c.mData pre) := by
  constructor
  · intro c1 rest h
    obtain ⟨consumed, e1, e2, e3, -, e5, e6⟩ := wait_some pred ws c c1 rest h
    refine ⟨consumed, e1, e6, by rw [← e2]; exact e3, e2, ?_, ?_⟩
    · rw [emitted_of_trace c c1 _ e5]
      have := wait_events_preds consumed.length
      simpa using this
    · rw [emitted_of_trace c c1 _ e5]
      have := wait_events_waits consumed.length
      simpa [List.count_cons, List.count_append] using this
  · intro pre rest hws hk hp
    rw [hws, wait_at_first pred rest pre c hk hp]
    exact ⟨_, rfl, rfl⟩

/-- A run of C24: two spurious wakeups, then a wakeup after another context
has stored 3; a further wakeup is left unconsumed. -/
theorem wait_absorbs_spurious_witness :
    ∃ c1 : LLCond Nat,
      wait (fun v : Nat => v == 3) ⟨0, 0, []⟩
          [⟨.no_timeout, 1, []⟩, ⟨.no_timeout, 2, []⟩, ⟨.no_timeout, 3, [(3, fun _ => 3)]⟩,
            ⟨.no_timeout, 4, [(4, fun _ => 0)]⟩]
        = some (c1, [⟨.no_timeout, 4, [(4, fun _ => 0)]⟩]) ∧
      c1.mData = Wakeup.observe 0
        [⟨.no_timeout, 1, []⟩, ⟨.no_timeout, 2, []⟩, ⟨.no_timeout, 3, [(3, fun _ => 3)]⟩] :=
  (wait_absorbs_spurious (fun v : Nat => v == 3) ⟨0, 0, []⟩
    [⟨.no_timeout, 1, []⟩, ⟨.no_timeout, 2, []⟩, ⟨.no_timeout, 3, [(3, fun _ => 3)]⟩,
      ⟨.no_timeout, 4, [(4, fun _ => 0)]⟩]).2
    [⟨.no_timeout, 1, []⟩, ⟨.no_timeout, 2, []⟩, ⟨.no_timeout, 3, [(3, fun _ => 3)]⟩]
    [⟨.no_timeout, 4, [(4, fun _ => 0)]⟩] rfl
    (fun k hk => by
      have hk3 : k < 3 := hk
      interval_cases k <;> rfl)
    rfl

/-- C25: whenever `wait_until` returns, the boolean it returns is the
predicate evaluated on the value stored at that moment, the value observed
after the wakeups it consumed. -/
theorem wait_until_returns_pred {α : Type} (t : Int) (pred : α → Bool)
    (c c1 : LLCond α) (b : Bool) (ws rest : List (Wakeup α))
    (h : wait_until t pred c ws = some (b, c1, rest)) :
    b = pred c1.mData ∧
    ∃ consumed : List (Wakeup α),
      ws = consumed ++ rest ∧ c1.mData = Wakeup.observe c.mData consumed := by
  obtain ⟨consumed, e1, e2, e3, -⟩ := wait_until_some t pred ws c c1 b rest h
  exact ⟨e3.symm, consumed, e1, e2⟩

/-- A run of C25: the timed wait reports timeout, but another context has
stored 1 just before the caller owns the mutex again; the result is true. -/
theorem wait_until_returns_pred_witness :
    true = (fun v : Nat => v == 1) (⟨1, 7, [.lock, .pred false, .wait_until 5 .timeout,
        .pred true, .unlock]⟩ : LLCond Nat).mData ∧
    ∃ consumed : List (Wakeup Nat),
      [⟨.timeout, 7, [(6, fun _ => 1)]⟩] = consumed ++ [] ∧
      (⟨1, 7, [.lock, .pred false, .wait_until 5 .timeout, .pred true, .unlock]⟩
        : LLCond Nat).mData = Wakeup.observe 0 consumed :=
  wait_until_returns_pred 5 (fun v : Nat => v == 1) ⟨0, 0, []⟩
    ⟨1, 7, [.lock, .pred false, .wait_until 5 .timeout, .pred true, .unlock]⟩ true
    [⟨.timeout, 7, [(6, fun _ => 1)]⟩] [] rfl

/-- C26: if the predicate already holds of the stored value, `wait_until`
and `wait_for` return true for every deadline and every duration, a deadline
in the past and a zero or negative duration included, without a timed wait
and without consuming a wakeup. -/
theorem timed_wait_immediate {α : Type} (pred : α → Bool) (c : LLCond α)
    (ws : List (Wakeup α)) (hp : pred c.mData = true) (t d : Int) :
    wait_until t pred c ws
      = some (true, ⟨c.mData, c.clock, c.trace ++ [.lock, .pred true, .unlock]⟩, ws) ∧
    wait_for d pred c ws
      = some (true,
          ⟨c.mData, c.clock, c.trace ++ [.now c.clock, .lock, .pred true, .unlock]⟩, ws) ∧
    (∀ b c1 rest, wait_until t pred c ws = some (b, c1, rest) →
      b = true ∧ rest = ws ∧ ∀ u st, Event.wait_until u st ∉ emitted c c1) ∧
    (∀ b c1 rest, wait_for d pred c ws = some (b, c1, rest) →
      b = true ∧ rest = ws ∧ ∀ u st, Event.wait_until u st ∉ emitted c c1) := by
  have hu := wait_until_of_true t pred c ws hp
  have hf := wait_for_of_true d pred c ws hp
  refine ⟨hu, hf, ?_, ?_⟩
  · intro b c1 rest h
    rw [hu] at h
    simp only [Option.some.injEq, Prod.mk.injEq] at h
    obtain ⟨h1, h2, h3⟩ := h
    subst h1; subst h2; subst h3
    refine ⟨rfl, rfl, ?_⟩
    intro u st
    simp [emitted]
  · intro b c1 rest h
    rw [hf] at h
    simp only [Option.some.injEq, Prod.mk.injEq] at h
    obtain ⟨h1, h2, h3⟩ := h
    subst h1; subst h2; subst h3
    refine ⟨rfl, rfl, ?_⟩
    intro u st
    simp [emitted]

/-- A run of C26: the clock reads 100, the deadline 5 is in the past and the
duration is negative; a wakeup that would report timeout is left unconsumed. -/
theorem timed_wait_immediate_witness :
    wait_until 5 (fun v : Nat => v == 3) ⟨3, 100, []⟩ [⟨.timeout, 101, []⟩]
      = some (true, ⟨3, 100, [.lock, .pred true, .unlock]⟩, [⟨.timeout, 101, []⟩]) ∧
    wait_for (-7) (fun v : Nat => v == 3) ⟨3, 100, []⟩ [⟨.timeout, 101, []⟩]
      = some (true, ⟨3, 100, [.now 100, .lock, .pred true, .unlock]⟩,
          [⟨.timeout, 101, []⟩]) :=
  ⟨(timed_wait_immediate (fun v : Nat => v == 3) ⟨3, 100, []⟩ [⟨.timeout, 101, []⟩]
      rfl 5 (-7)).1,
    (timed_wait_immediate (fun v : Nat => v == 3) ⟨3, 100, []⟩ [⟨.timeout, 101, []⟩]
      rfl 5 (-7)).2.1⟩

/-- C27: a list of calls of `update_one` and `update_all`, in any mix, run
one after another leaves the stored value equal to the left fold of the
mutators over the initial value, and issues exactly as many notifications
as there are calls, with as many acquisitions of the lock and as many calls
of a mutator. -/
theorem updates_compose {α : Type} (us : List (Update α)) (c : LLCond α) :
    (Update.run_all us c).mData = us.foldl (fun v u => u.modify v) c.mData ∧
    (emitted c (Update.run_all us c)).countP is_notify = us.length ∧
    (emitted c (Update.run_all us c)).count .lock = us.length ∧
    (emitted c (Update.run_all us c)).count .modify = us.length := by
  obtain ⟨h1, -, s, h3, h4, h5, h6⟩ := Update.run_all_spec us c
  rw [emitted_of_trace c _ s h3]
  exact ⟨h1, h4, h5, h6⟩

/-- C28: whatever the entries of the cache directory, the maximum size and
the order `std::sort` leaves the selected files in, if the running total of
`purge` does not overflow (the sizes of the selected files add up to less
than `2 ^ 64`), then the sizes of the files with the action KEEP add up to
at most `mMaxSizeBytes`; the directory `purge()` leaves is the directory
before without the entries whose path has the action DELETE; and the sizes
of the cache files left in that directory, which `dirFileSize` reports, add
up to at most `mMaxSizeBytes`.  The same holds of `purge` with the order
insertion sort gives. -/
theorem purge_kept_within_max (mMaxSizeBytes : Nat) (d : CacheDir)
    (sorted : List LLDiskCache.file_info_t)
    (hperm : sorted.Perm (LLDiskCache.file_info d))
    (hno : (LLDiskCache.sizes (LLDiskCache.file_info d)).sum < LLDiskCache.UINTMAX_MOD) :
    (LLDiskCache.sizes
      (LLDiskCache.kept (LLDiskCache.purge_with_actions mMaxSizeBytes sorted d))).sum
        ≤ mMaxSizeBytes ∧
    (LLDiskCache.purge_with mMaxSizeBytes sorted d).entries
      = d.entries.filter (fun entry => decide (entry.path ∉
          LLDiskCache.paths (LLDiskCache.deleted
            (LLDiskCache.purge_with_actions mMaxSizeBytes sorted d)))) ∧
    ((LLDiskCache.cache_files (LLDiskCache.purge_with mMaxSizeBytes sorted d)).map
      DirEntry.file_size).sum ≤ mMaxSizeBytes ∧
    LLDiskCache.dirFileSize (LLDiskCache.purge_with mMaxSizeBytes sorted d)
      ≤ mMaxSizeBytes ∧
    ((LLDiskCache.cache_files (LLDiskCache.purge mMaxSizeBytes d)).map
      DirEntry.file_size).sum ≤ mMaxSizeBytes ∧
    (LLDiskCache.sizes (LLDiskCache.kept (LLDiskCache.purge_actions mMaxSizeBytes d))).sum
      ≤ mMaxSizeBytes := by
  have main : ∀ l : List LLDiskCache.file_info_t, l.Perm (LLDiskCache.file_info d) →
      (LLDiskCache.sizes (LLDiskCache.kept (LLDiskCache.purge_loop mMaxSizeBytes l 0 d).1)).sum
        ≤ mMaxSizeBytes ∧
      ((LLDiskCache.cache_files (LLDiskCache.purge_loop mMaxSizeBytes l 0 d).2).map
        DirEntry.file_size).sum ≤ mMaxSizeBytes := by
    intro l hl
    have hsum : (LLDiskCache.sizes l).sum = (LLDiskCache.sizes (LLDiskCache.file_info d)).sum :=
      (hl.map _).sum_eq
    obtain ⟨k, -, hk2, hk3, -⟩ := LLDiskCache.purge_loop_split mMaxSizeBytes l 0 d
      (by rw [hsum]; omega)
    have hK : (LLDiskCache.sizes (l.take k)).sum ≤ mMaxSizeBytes := by
      rcases hk3 with h | h
      · subst h
        simp [LLDiskCache.sizes]
      · omega
    refine ⟨?_, ?_⟩
    · rw [hk2, LLDiskCache.kept_split]
      exact hK
    · rw [LLDiskCache.purge_loop_cache_files, hk2, LLDiskCache.deleted_split]
      exact (LLDiskCache.remaining_sum_le d l (l.take k) (l.drop k) hl
        (List.take_append_drop k l).symm).trans hK
  have hs := main sorted hperm
  have hi := main (LLDiskCache.sort_file_info (LLDiskCache.file_info d))
    (LLDiskCache.sort_file_info_perm _)
  refine ⟨hs.1, LLDiskCache.purge_loop_dir mMaxSizeBytes sorted 0 d, hs.2, ?_, hi.2, hi.1⟩
  have hmod : LLDiskCache.dirFileSize (LLDiskCache.purge_with mMaxSizeBytes sorted d)
      = ((LLDiskCache.cache_files (LLDiskCache.purge_with mMaxSizeBytes sorted d)).map
          DirEntry.file_size).sum % LLDiskCache.UINTMAX_MOD := by
    unfold LLDiskCache.dirFileSize LLDiskCache.cache_files
    by_cases hd : (LLDiskCache.purge_with mMaxSizeBytes sorted d).is_directory = true
    · simp only [hd, if_true]
      have := LLDiskCache.dirFileSize_loop
        (LLDiskCache.purge_with mMaxSizeBytes sorted d).entries 0
      simpa using this
    · simp [hd]
  rw [hmod]
  exact (Nat.mod_le _ _).trans hs.2

/-- A run of C28: three cache files of sizes 6, 8 and 1 written at times 30,
20 and 10, a file that is no cache file and a subdirectory; the maximum is
10 and `std::sort` leaves the files in the order of their times. -/
theorem purge_kept_within_max_witness :
    ((LLDiskCache.cache_files (LLDiskCache.purge 10
      ⟨true, [⟨"cache/sl_cache_b_0_SOUND.asset", true, 8, 20⟩,
        ⟨"cache/readme.txt", true, 100, 40⟩,
        ⟨"cache/sl_cache_a_0_TEXTURE.asset", true, 6, 30⟩,
        ⟨"cache/sl_cache_dir", false, 0, 5⟩,
        ⟨"cache/sl_cache_c_0_MESH.asset", true, 1, 10⟩]⟩)).map
      DirEntry.file_size).sum ≤ 10 ∧
    (LLDiskCache.purge 10
      ⟨true, [⟨"cache/sl_cache_b_0_SOUND.asset", true, 8, 20⟩,
        ⟨"cache/readme.txt", true, 100, 40⟩,
        ⟨"cache/sl_cache_a_0_TEXTURE.asset", true, 6, 30⟩,
        ⟨"cache/sl_cache_dir", false, 0, 5⟩,
        ⟨"cache/sl_cache_c_0_MESH.asset", true, 1, 10⟩]⟩).entries
      = [⟨"cache/readme.txt", true, 100, 40⟩,
          ⟨"cache/sl_cache_a_0_TEXTURE.asset", true, 6, 30⟩,
          ⟨"cache/sl_cache_dir", false, 0, 5⟩] :=
  ⟨(purge_kept_within_max 10
      ⟨true, [⟨"cache/sl_cache_b_0_SOUND.asset", true, 8, 20⟩,
        ⟨"cache/readme.txt", true, 100, 40⟩,
        ⟨"cache/sl_cache_a_0_TEXTURE.asset", true, 6, 30⟩,
        ⟨"cache/sl_cache_dir", false, 0, 5⟩,
        ⟨"cache/sl_cache_c_0_MESH.asset", true, 1, 10⟩]⟩
      [(30, (6, "cache/sl_cache_a_0_TEXTURE.asset")),
        (20, (8, "cache/sl_cache_b_0_SOUND.asset")),
        (10, (1, "cache/sl_cache_c_0_MESH.asset"))]
      (by decide) (by decide)).2.2.2.2.1,
    by decide⟩

/-- C29, as stated, fails on the code when the running total wraps.  Three
cache files written at times 4, 3 and 2, of sizes `2 ^ 63 - 1`, `2 ^ 63 - 1`
and 2, and the maximum 10; the times differ, so `std::sort` can only leave
them in this order.  The total is above the maximum after the first and the
second file, which are deleted, and wraps to 0 at the third, which is kept:
the directory `purge()` leaves holds the oldest file alone, kept although
the two newer ones were deleted. -/
theorem purge_keeps_older_after_wrap :
    LLDiskCache.is_std_sorted
      [(4, (9223372036854775807, "cache/sl_cache_a")),
        (3, (9223372036854775807, "cache/sl_cache_b")), (2, (2, "cache/sl_cache_c"))]
      (LLDiskCache.file_info
        ⟨true, [⟨"cache/sl_cache_a", true, 9223372036854775807, 4⟩,
          ⟨"cache/sl_cache_b", true, 9223372036854775807, 3⟩,
          ⟨"cache/sl_cache_c", true, 2, 2⟩]⟩) ∧
    LLDiskCache.kept (LLDiskCache.purge_actions 10
      ⟨true, [⟨"cache/sl_cache_a", true, 9223372036854775807, 4⟩,
        ⟨"cache/sl_cache_b", true, 9223372036854775807, 3⟩,
        ⟨"cache/sl_cache_c", true, 2, 2⟩]⟩) = [(2, (2, "cache/sl_cache_c"))] ∧
    LLDiskCache.deleted (LLDiskCache.purge_actions 10
      ⟨true, [⟨"cache/sl_cache_a", true, 9223372036854775807, 4⟩,
        ⟨"cache/sl_cache_b", true, 9223372036854775807, 3⟩,
        ⟨"cache/sl_cache_c", true, 2, 2⟩]⟩)
      = [(4, (9223372036854775807, "cache/sl_cache_a")),
          (3, (9223372036854775807, "cache/sl_cache_b"))] ∧
    (LLDiskCache.purge_with 10
      [(4, (9223372036854775807, "cache/sl_cache_a")),
        (3, (9223372036854775807, "cache/sl_cache_b")), (2, (2, "cache/sl_cache_c"))]
      ⟨true, [⟨"cache/sl_cache_a", true, 9223372036854775807, 4⟩,
        ⟨"cache/sl_cache_b", true, 9223372036854775807, 3⟩,
        ⟨"cache/sl_cache_c", true, 2, 2⟩]⟩).entries
      = [⟨"cache/sl_cache_c", true, 2, 2⟩] ∧
    (LLDiskCache.purge 10
      ⟨true, [⟨"cache/sl_cache_a", true, 9223372036854775807, 4⟩,
        ⟨"cache/sl_cache_b", true, 9223372036854775807, 3⟩,
        ⟨"cache/sl_cache_c", true, 2, 2⟩]⟩).entries
      = [⟨"cache/sl_cache_c", true, 2, 2⟩] := by
  refine ⟨⟨by decide, by decide⟩, by decide, by decide, by decide, by decide⟩

/-- C29, amended: if the running total does not overflow, then, in a
directory whose entries have distinct paths and whatever order `std::sort`
leaves the cache files in from most to least recently written, `purge()`
gives the action KEEP to exactly the longest initial run of that order
whose cumulative size is at most `mMaxSizeBytes` and DELETE to all the
others; the cache files left in the directory are exactly the ones with
KEEP and the ones removed exactly the ones with DELETE; no file left is
older than a removed file, and every cache file older than a removed file
is removed too, whatever its size. -/
theorem purge_keeps_newest (mMaxSizeBytes : Nat) (d : CacheDir)
    (sorted : List LLDiskCache.file_info_t)
    (hstd : LLDiskCache.is_std_sorted sorted (LLDiskCache.file_info d))
    (hnd : (d.entries.map DirEntry.path).Nodup)
    (hno : (LLDiskCache.sizes (LLDiskCache.file_info d)).sum < LLDiskCache.UINTMAX_MOD) :
    ∃ k, k ≤ sorted.length ∧
      LLDiskCache.kept (LLDiskCache.purge_with_actions mMaxSizeBytes sorted d)
        = sorted.take k ∧
      LLDiskCache.deleted (LLDiskCache.purge_with_actions mMaxSizeBytes sorted d)
        = sorted.drop k ∧
      (LLDiskCache.sizes (sorted.take k)).sum ≤ mMaxSizeBytes ∧
      (∀ j, j ≤ sorted.length →
        (LLDiskCache.sizes (sorted.take j)).sum ≤ mMaxSizeBytes → j ≤ k) ∧
      (∀ x ∈ LLDiskCache.kept (LLDiskCache.purge_with_actions mMaxSizeBytes sorted d),
        ∀ y ∈ LLDiskCache.deleted (LLDiskCache.purge_with_actions mMaxSizeBytes sorted d),
          y.1 ≤ x.1) ∧
      (∀ y ∈ LLDiskCache.deleted (LLDiskCache.purge_with_actions mMaxSizeBytes sorted d),
        ∀ z ∈ sorted, z.1 < y.1 →
          z ∈ LLDiskCache.deleted (LLDiskCache.purge_with_actions mMaxSizeBytes sorted d)) ∧
      (∀ entry ∈ LLDiskCache.cache_files d,
        (entry ∈ (LLDiskCache.purge_with mMaxSizeBytes sorted d).entries ↔
          LLDiskCache.file_info_of entry ∈ sorted.take k)) ∧
      (∀ entry ∈ LLDiskCache.cache_files d,
        (entry ∉ (LLDiskCache.purge_with mMaxSizeBytes sorted d).entries ↔
          LLDiskCache.file_info_of entry ∈ sorted.drop k)) ∧
      (∀ e1 ∈ LLDiskCache.cache_files (LLDiskCache.purge_with mMaxSizeBytes sorted d),
        ∀ e2 ∈ LLDiskCache.cache_files d,
          e2 ∉ (LLDiskCache.purge_with mMaxSizeBytes sorted d).entries →
          e2.last_write_time ≤ e1.last_write_time) ∧
      (∀ e2 ∈ LLDiskCache.cache_files d,
        e2 ∉ (LLDiskCache.purge_with mMaxSizeBytes sorted d).entries →
        ∀ e3 ∈ LLDiskCache.cache_files d, e3.last_write_time < e2.last_write_time →
          e3 ∉ (LLDiskCache.purge_with mMaxSizeBytes sorted d).entries) := by
  obtain ⟨hperm, hsorted⟩ := hstd
  have hsum : (LLDiskCache.sizes sorted).sum
      = (LLDiskCache.sizes (LLDiskCache.file_info d)).sum := (hperm.map _).sum_eq
  obtain ⟨k, hk1, hk2, hk3, hk4⟩ := LLDiskCache.purge_loop_split mMaxSizeBytes sorted 0 d
    (by rw [hsum]; omega)
  have hkept : LLDiskCache.kept (LLDiskCache.purge_with_actions mMaxSizeBytes sorted d)
      = sorted.take k := by
    unfold LLDiskCache.purge_with_actions
    rw [hk2, LLDiskCache.kept_split]
  have hdel : LLDiskCache.deleted (LLDiskCache.purge_with_actions mMaxSizeBytes sorted d)
      = sorted.drop k := by
    unfold LLDiskCache.purge_with_actions
    rw [hk2, LLDiskCache.deleted_split]
  have hsplit : sorted.take k ++ sorted.drop k = sorted := List.take_append_drop k sorted
  have hcross : ∀ x ∈ sorted.take k, ∀ y ∈ sorted.drop k, y.1 ≤ x.1 := by
    have hp : (sorted.take k ++ sorted.drop k).Pairwise (fun x y => y.1 ≤ x.1) := by
      rw [hsplit]
      exact hsorted
    exact (List.pairwise_append.mp hp).2.2
  have hnodup : (sorted.take k ++ sorted.drop k).Nodup := by
    rw [hsplit]
    exact hperm.nodup_iff.mpr (LLDiskCache.file_info_nodup d hnd)
  have hdisj : ∀ x, x ∈ sorted.take k → x ∈ sorted.drop k → False :=
    fun x h1 h2 => (List.nodup_append.mp hnodup).2.2 h1 h2
  have hent : ∀ e ∈ LLDiskCache.cache_files d, e ∈ d.entries := by
    intro e h
    unfold LLDiskCache.cache_files at h
    by_cases hd : d.is_directory = true
    · simp only [hd, if_true] at h
      exact (List.mem_filter.mp h).1
    · simp [hd] at h
  have hin : ∀ e ∈ LLDiskCache.cache_files d, LLDiskCache.file_info_of e ∈ sorted := by
    intro e h
    apply hperm.mem_iff.mpr
    rw [LLDiskCache.file_info_eq]
    exact List.mem_map.mpr ⟨e, h, rfl⟩
  have hgone : ∀ e ∈ LLDiskCache.cache_files d,
      (e ∉ (LLDiskCache.purge_with mMaxSizeBytes sorted d).entries ↔
        LLDiskCache.file_info_of e ∈ sorted.drop k) := by
    intro e he
    have hp := LLDiskCache.path_mem_iff d sorted (sorted.drop k) hperm hnd
      (fun x hx => List.mem_of_mem_drop hx) e he
    have hd2 : LLDiskCache.deleted (LLDiskCache.purge_loop mMaxSizeBytes sorted 0 d).1
        = sorted.drop k := hdel
    unfold LLDiskCache.purge_with
    rw [LLDiskCache.purge_loop_dir, hd2, ← hp]
    simp [List.mem_filter, hent e he]
  have hstay : ∀ e ∈ LLDiskCache.cache_files d,
      (e ∈ (LLDiskCache.purge_with mMaxSizeBytes sorted d).entries ↔
        LLDiskCache.file_info_of e ∈ sorted.take k) := by
    intro e he
    constructor
    · intro h
      have hnot : LLDiskCache.file_info_of e ∉ sorted.drop k :=
        fun hx => ((hgone e he).mpr hx) h
      have hs := hin e he
      rw [← hsplit] at hs
      rcases List.mem_append.mp hs with h1 | h1
      · exact h1
      · exact absurd h1 hnot
    · intro h
      by_contra hn
      exact hdisj _ h ((hgone e he).mp hn)
  have hleft : ∀ e1 ∈ LLDiskCache.cache_files (LLDiskCache.purge_with mMaxSizeBytes sorted d),
      e1 ∈ LLDiskCache.cache_files d ∧
        e1 ∈ (LLDiskCache.purge_with mMaxSizeBytes sorted d).entries := by
    intro e1 h1
    have h2 : e1 ∈ (LLDiskCache.purge_with mMaxSizeBytes sorted d).entries := by
      unfold LLDiskCache.cache_files at h1
      by_cases hd : (LLDiskCache.purge_with mMaxSizeBytes sorted d).is_directory = true
      · simp only [hd, if_true] at h1
        exact (List.mem_filter.mp h1).1
      · simp [hd] at h1
    unfold LLDiskCache.purge_with at h1
    rw [LLDiskCache.purge_loop_cache_files] at h1
    exact ⟨(List.mem_filter.mp h1).1, h2⟩
  rw [hkept, hdel]
  refine ⟨k, hk1, rfl, rfl, ?_, ?_, hcross, ?_, hstay, hgone, ?_, ?_⟩
  · rcases hk3 with h | h
    · subst h
      simp [LLDiskCache.sizes]
    · omega
  · intro j hj hsumj
    by_contra hjk
    have hlt : k < j := Nat.lt_of_not_le hjk
    have hk5 := hk4 (Nat.lt_of_lt_of_le hlt hj)
    have hsub : (LLDiskCache.sizes (sorted.take (k + 1))).Sublist
        (LLDiskCache.sizes (sorted.take j)) :=
      (List.take_sublist_take_left sorted hlt).map _
    have hle := hsub.sum_le_sum (fun a _ => Nat.zero_le a)
    omega
  · intro y hy z hz hzy
    rw [← hsplit] at hz
    rcases List.mem_append.mp hz with h | h
    · have := hcross z h y hy
      omega
    · exact h
  · intro e1 h1 e2 he2 hgone2
    obtain ⟨hc1, hm1⟩ := hleft e1 h1
    exact hcross _ ((hstay e1 hc1).mp hm1) _ ((hgone e2 he2).mp hgone2)
  · intro e2 he2 hgone2 e3 he3 hlt
    apply (hgone e3 he3).mpr
    have hs := hin e3 he3
    rw [← hsplit] at hs
    rcases List.mem_append.mp hs with h | h
    · have hle : e2.last_write_time ≤ e3.last_write_time :=
        hcross _ h _ ((hgone e2 he2).mp hgone2)
      omega
    · exact h

/-- A run of the amended C29: cache files of sizes 6, 8 and 1 written at
times 30, 20 and 10 and the maximum 10; the newest is left in the directory,
the second is removed, and so is the oldest although its size would fit. -/
theorem purge_keeps_newest_witness :
    (LLDiskCache.purge_with 10
      [(30, (6, "cache/sl_cache_a_0_TEXTURE.asset")),
        (20, (8, "cache/sl_cache_b_0_SOUND.asset")),
        (10, (1, "cache/sl_cache_c_0_MESH.asset"))]
      ⟨true, [⟨"cache/sl_cache_b_0_SOUND.asset", true, 8, 20⟩,
        ⟨"cache/readme.txt", true, 100, 40⟩,
        ⟨"cache/sl_cache_a_0_TEXTURE.asset", true, 6, 30⟩,
        ⟨"cache/sl_cache_c_0_MESH.asset", true, 1, 10⟩]⟩).entries
      = [⟨"cache/readme.txt", true, 100, 40⟩,
          ⟨"cache/sl_cache_a_0_TEXTURE.asset", true, 6, 30⟩] ∧
    ∀ e2 ∈ LLDiskCache.cache_files
        ⟨true, [⟨"cache/sl_cache_b_0_SOUND.asset", true, 8, 20⟩,
          ⟨"cache/readme.txt", true, 100, 40⟩,
          ⟨"cache/sl_cache_a_0_TEXTURE.asset", true, 6, 30⟩,
          ⟨"cache/sl_cache_c_0_MESH.asset", true, 1, 10⟩]⟩,
      e2 ∉ (LLDiskCache.purge_with 10
        [(30, (6, "cache/sl_cache_a_0_TEXTURE.asset")),
          (20, (8, "cache/sl_cache_b_0_SOUND.asset")),
          (10, (1, "cache/sl_cache_c_0_MESH.asset"))]
        ⟨true, [⟨"cache/sl_cache_b_0_SOUND.asset", true, 8, 20⟩,
          ⟨"cache/readme.txt", true, 100, 40⟩,
          ⟨"cache/sl_cache_a_0_TEXTURE.asset", true, 6, 30⟩,
          ⟨"cache/sl_cache_c_0_MESH.asset", true, 1, 10⟩]⟩).entries →
      ∀ e3 ∈ LLDiskCache.cache_files
          ⟨true, [⟨"cache/sl_cache_b_0_SOUND.asset", true, 8, 20⟩,
            ⟨"cache/readme.txt", true, 100, 40⟩,
            ⟨"cache/sl_cache_a_0_TEXTURE.asset", true, 6, 30⟩,
            ⟨"cache/sl_cache_c_0_MESH.asset", true, 1, 10⟩]⟩,
        e3.last_write_time < e2.last_write_time →
        e3 ∉ (LLDiskCache.purge_with 10
          [(30, (6, "cache/sl_cache_a_0_TEXTURE.asset")),
            (20, (8, "cache/sl_cache_b_0_SOUND.asset")),
            (10, (1, "cache/sl_cache_c_0_MESH.asset"))]
          ⟨true, [⟨"cache/sl_cache_b_0_SOUND.asset", true, 8, 20⟩,
            ⟨"cache/readme.txt", true, 100, 40⟩,
            ⟨"cache/sl_cache_a_0_TEXTURE.asset", true, 6, 30⟩,
            ⟨"cache/sl_cache_c_0_MESH.asset", true, 1, 10⟩]⟩).entries := by
  obtain ⟨k, -, -, -, -, -, -, -, -, -, -, h⟩ := purge_keeps_newest 10
    ⟨true, [⟨"cache/sl_cache_b_0_SOUND.asset", true, 8, 20⟩,
      ⟨"cache/readme.txt", true, 100, 40⟩,
      ⟨"cache/sl_cache_a_0_TEXTURE.asset", true, 6, 30⟩,
      ⟨"cache/sl_cache_c_0_MESH.asset", true, 1, 10⟩]⟩
    [(30, (6, "cache/sl_cache_a_0_TEXTURE.asset")),
      (20, (8, "cache/sl_cache_b_0_SOUND.asset")),
      (10, (1, "cache/sl_cache_c_0_MESH.asset"))]
    ⟨by decide, by decide⟩ (by decide) (by decide)
  exact ⟨by decide, h⟩

/-- C30: in a directory whose entries have distinct paths, `purge()` and
`clearCache()` only remove entries, every entry that is not a regular file
or has no `sl_cache` in its path is left in place by both, every entry
`purge()` removes is a selected cache file, `clearCache()` removes exactly
the selected cache files, and `dirFileSize()` adds up, in `uintmax_t`, the
sizes of exactly those files. -/
theorem purge_clear_select (mMaxSizeBytes : Nat) (d : CacheDir)
    (hnd : (d.entries.map DirEntry.path).Nodup) :
    (∀ entry ∈ d.entries, LLDiskCache.is_cache_file entry = false →
      entry ∈ (LLDiskCache.purge mMaxSizeBytes d).entries ∧
      entry ∈ (LLDiskCache.clearCache d).entries) ∧
    (LLDiskCache.purge mMaxSizeBytes d).entries.Sublist d.entries ∧
    (LLDiskCache.clearCache d).entries.Sublist d.entries ∧
    (∀ entry ∈ d.entries, entry ∉ (LLDiskCache.purge mMaxSizeBytes d).entries →
      entry ∈ LLDiskCache.cache_files d) ∧
    (∀ entry ∈ d.entries,
      (entry ∉ (LLDiskCache.clearCache d).entries ↔ entry ∈ LLDiskCache.cache_files d)) ∧
    LLDiskCache.dirFileSize d
      = ((LLDiskCache.cache_files d).map DirEntry.file_size).sum
          % LLDiskCache.UINTMAX_MOD := by
  have hinj := List.inj_on_of_nodup_map hnd
  have hpurge : ∀ entry ∈ d.entries, LLDiskCache.is_cache_file entry = false →
      entry ∈ (LLDiskCache.purge mMaxSizeBytes d).entries := by
    intro entry hmem hnc
    apply (LLDiskCache.purge_loop_entries mMaxSizeBytes _ 0 d).2.2 entry hmem
    intro x hx hpath
    have hx1 : x ∈ LLDiskCache.file_info d :=
      (LLDiskCache.sort_file_info_perm _).mem_iff.mp hx
    obtain ⟨e1, he1, hc1, hp1⟩ := LLDiskCache.file_info_mem d x hx1
    have heq : e1 = entry := hinj he1 hmem (by rw [← hp1, hpath])
    rw [heq, hnc] at hc1
    cases hc1
  have hclear : ∀ entry ∈ d.entries,
      (entry ∈ (LLDiskCache.clearCache d).entries ↔
        ¬ (d.is_directory = true ∧ LLDiskCache.is_cache_file entry = true)) := by
    intro entry hmem
    unfold LLDiskCache.clearCache
    by_cases hd : d.is_directory = true
    · simp only [hd, if_true, true_and]
      rw [LLDiskCache.clearCache_loop_mem]
      constructor
      · rintro ⟨-, h⟩ hc
        exact h entry hmem hc rfl
      · intro hc
        refine ⟨hmem, fun x hx hcx hpath => hc ?_⟩
        rw [← hinj hx hmem hpath]
        exact hcx
    · simp [hd, hmem]
  have hcf : ∀ entry ∈ d.entries,
      (entry ∈ LLDiskCache.cache_files d ↔
        (d.is_directory = true ∧ LLDiskCache.is_cache_file entry = true)) := by
    intro entry hmem
    unfold LLDiskCache.cache_files
    by_cases hd : d.is_directory = true
    · simp [hd, hmem]
    · simp [hd]
  refine ⟨?_, ?_, ?_, ?_, ?_, ?_⟩
  · intro entry hmem hnc
    refine ⟨hpurge entry hmem hnc, (hclear entry hmem).mpr ?_⟩
    rintro ⟨-, hc⟩
    rw [hnc] at hc
    cases hc
  · exact (LLDiskCache.purge_loop_entries mMaxSizeBytes _ 0 d).2.1
  · unfold LLDiskCache.clearCache
    by_cases hd : d.is_directory = true
    · simp only [hd, if_true]
      exact LLDiskCache.clearCache_loop_sublist d.entries d
    · simp [hd]
  · intro entry hmem hnot
    have hc : LLDiskCache.is_cache_file entry = true := by
      by_contra hc
      exact hnot (hpurge entry hmem (by simpa using hc))
    have hd : d.is_directory = true := by
      by_contra hd
      apply hnot
      have hnil : LLDiskCache.file_info d = [] := by
        simp [LLDiskCache.file_info, LLDiskCache.cache_files, hd]
      unfold LLDiskCache.purge
      rw [hnil]
      exact hmem
    exact (hcf entry hmem).mpr ⟨hd, hc⟩
  · intro entry hmem
    rw [hcf entry hmem, ← not_iff_not, not_not]
    exact hclear entry hmem
  · unfold LLDiskCache.dirFileSize LLDiskCache.cache_files
    by_cases hd : d.is_directory = true
    · simp only [hd, if_true]
      have := LLDiskCache.dirFileSize_loop d.entries 0
      simpa using this
    · simp [hd]

/-- A run of C30: three cache files, a file that is no cache file and a
directory whose name contains `sl_cache`; the maximum is 10. -/
theorem purge_clear_select_witness :
    (∀ entry ∈ [(⟨"cache/sl_cache_b_0_SOUND.asset", true, 8, 20⟩ : DirEntry),
        ⟨"cache/readme.txt", true, 100, 40⟩,
        ⟨"cache/sl_cache_a_0_TEXTURE.asset", true, 6, 30⟩,
        ⟨"cache/sl_cache_dir", false, 0, 5⟩,
        ⟨"cache/sl_cache_c_0_MESH.asset", true, 1, 10⟩],
      LLDiskCache.is_cache_file entry = false →
      entry ∈ (LLDiskCache.purge 10
        ⟨true, [⟨"cache/sl_cache_b_0_SOUND.asset", true, 8, 20⟩,
          ⟨"cache/readme.txt", true, 100, 40⟩,
          ⟨"cache/sl_cache_a_0_TEXTURE.asset", true, 6, 30⟩,
          ⟨"cache/sl_cache_dir", false, 0, 5⟩,
          ⟨"cache/sl_cache_c_0_MESH.asset", true, 1, 10⟩]⟩).entries ∧
      entry ∈ (LLDiskCache.clearCache
        ⟨true, [⟨"cache/sl_cache_b_0_SOUND.asset", true, 8, 20⟩,
          ⟨"cache/readme.txt", true, 100, 40⟩,
          ⟨"cache/sl_cache_a_0_TEXTURE.asset", true, 6, 30⟩,
          ⟨"cache/sl_cache_dir", false, 0, 5⟩,
          ⟨"cache/sl_cache_c_0_MESH.asset", true, 1, 10⟩]⟩).entries) ∧
    LLDiskCache.dirFileSize
        ⟨true, [⟨"cache/sl_cache_b_0_SOUND.asset", true, 8, 20⟩,
          ⟨"cache/readme.txt", true, 100, 40⟩,
          ⟨"cache/sl_cache_a_0_TEXTURE.asset", true, 6, 30⟩,
          ⟨"cache/sl_cache_dir", false, 0, 5⟩,
          ⟨"cache/sl_cache_c_0_MESH.asset", true, 1, 10⟩]⟩ = 15 :=
  ⟨(purge_clear_select 10
      ⟨true, [⟨"cache/sl_cache_b_0_SOUND.asset", true, 8, 20⟩,
        ⟨"cache/readme.txt", true, 100, 40⟩,
        ⟨"cache/sl_cache_a_0_TEXTURE.asset", true, 6, 30⟩,
        ⟨"cache/sl_cache_dir", false, 0, 5⟩,
        ⟨"cache/sl_cache_c_0_MESH.asset", true, 1, 10⟩]⟩ (by decide)).1,
    by decide⟩
